import Mathlib

/-!
# Verification of the skybook serverless handlers

Shallow embedding, in Lean 4, of the pure computational core of the
skybook repository:

* the path normalizers of `src/functions/api/rank.js` / `src/functions/api/visit.js`
  and of `src/unnamed/part_002` (the `encodeURI(decodeURI(...))` variant);
* the SQL literal rendering and placeholder substitution of
  `src/functions/api/rank.js` (`formatSqlValue`, `formatSqlWithParams`);
* the analytics aggregate plumbing (`unwrapRows`, `getNumber`, `queryNumber`
  and the rank/visit handlers' aggregate wiring);
* the keep-alive ("hangup") configuration model: records, the sweep
  executors of `src/worker.ts` and `src/unnamed/part_004`, the due
  predicate of `src/unnamed/part_003` (second program), the lifecycle
  operations (list projection, delete, toggle).

JavaScript strings are modelled as `List Char` (sequences of Unicode code
points); JavaScript's number type is modelled by `Int` where only integral
finite values occur; external effects (KV store, `fetch`) are modelled by
explicit stores and outcome oracles.
-/

/-! ## Basic character and string utilities -/

/-- The single-quote character (U+0027). -/
def squote : Char := Char.ofNat 39

/-- ASCII alphanumeric test, the character class `[a-zA-Z0-9]` used by the
`hasExt` regexps in the path normalizers. -/
def isAsciiAlnum (c : Char) : Bool :=
  (97 ≤ c.toNat && c.toNat ≤ 122) || (65 ≤ c.toNat && c.toNat ≤ 90) ||
    (48 ≤ c.toNat && c.toNat ≤ 57)

/-- The white-space characters removed by JavaScript `String.prototype.trim`
(ASCII white space, NBSP, the Unicode space separators, line/paragraph
separators and the BOM). -/
def isJsWs (c : Char) : Bool :=
  c.toNat = 9 || c.toNat = 10 || c.toNat = 11 || c.toNat = 12 || c.toNat = 13 ||
    c.toNat = 32 || c.toNat = 0xA0 || c.toNat = 0x1680 ||
    (0x2000 ≤ c.toNat && c.toNat ≤ 0x200A) || c.toNat = 0x2028 ||
    c.toNat = 0x2029 || c.toNat = 0x202F || c.toNat = 0x205F ||
    c.toNat = 0x3000 || c.toNat = 0xFEFF

/-- JavaScript `String.prototype.trim`: drop white space from both ends. -/
def jsTrim (l : List Char) : List Char :=
  ((l.dropWhile isJsWs).reverse.dropWhile isJsWs).reverse

/-- `path.replace(/\/{2,}/g, "/")`: collapse every run of slashes to a single
slash (runs of length one are unchanged, so this collapses every maximal run
to one `/`). -/
def collapseSlashes : List Char → List Char
  | [] => []
  | [c] => [c]
  | a :: b :: r =>
    if a = '/' && b = '/' then collapseSlashes (b :: r)
    else a :: collapseSlashes (b :: r)

/-- No two adjacent slashes occur in the list (the invariant established by
`collapseSlashes`). -/
def noDupSlash : List Char → Bool
  | [] => true
  | [_] => true
  | a :: b :: r => !(a = '/' && b = '/') && noDupSlash (b :: r)

/-- The regex test `/\.[a-zA-Z0-9]+$/.test(path)`: the string ends with a dot
followed by one or more ASCII alphanumerics. -/
def hasExtSuffix (l : List Char) : Bool :=
  let r := l.reverse
  let al := r.takeWhile isAsciiAlnum
  !al.isEmpty && ((r.drop al.length).head? == some '.')

/-- The path normalizer of `src/functions/api/rank.js` (`normalizePath`,
lines 71–79; identical in `src/functions/api/visit.js`): trim, default empty
to `/`, ensure a leading slash, collapse repeated slashes, and append a
trailing slash unless the path is `/`, has a file-extension-like suffix, or
already ends in `/`. -/
def normalizePathA (input : List Char) : List Char :=
  let path := jsTrim input
  if path = [] then ['/']
  else
    let path := if path.head? = some '/' then path else '/' :: path
    let path := collapseSlashes path
    let hasExt := hasExtSuffix path
    if path ≠ ['/'] ∧ hasExt = false ∧ path.getLast? ≠ some '/' then path ++ ['/']
    else path

/-! ## JavaScript `encodeURI` / `decodeURI` (ECMA-262)

`src/unnamed/part_002`'s `normalizePath` first runs the path through
`encodeURI(decodeURI(path))` (falling back to `encodeURI(path)` when
`decodeURI` throws a `URIError`).  The two builtins are modelled below over
sequences of Unicode code points; a failing `decodeURI` is `none`.  (A Lean
`Char` is always a Unicode scalar value, so the lone-surrogate `URIError` of
`encodeURI` cannot arise and `encodeURI` is total here.) -/

/-- Uppercase hexadecimal digit for a value below 16. -/
def hexDigitChar : Nat → Char
  | 0 => '0' | 1 => '1' | 2 => '2' | 3 => '3' | 4 => '4' | 5 => '5'
  | 6 => '6' | 7 => '7' | 8 => '8' | 9 => '9' | 10 => 'A' | 11 => 'B'
  | 12 => 'C' | 13 => 'D' | 14 => 'E' | _ => 'F'

/-- Value of a hexadecimal digit character (either case), `none` otherwise. -/
def hexVal (c : Char) : Option Nat :=
  if 48 ≤ c.toNat ∧ c.toNat ≤ 57 then some (c.toNat - 48)
  else if 65 ≤ c.toNat ∧ c.toNat ≤ 70 then some (c.toNat - 55)
  else if 97 ≤ c.toNat ∧ c.toNat ≤ 102 then some (c.toNat - 87)
  else none

/-- UTF-8 encoding of one code point, as byte values. -/
def utf8Bytes (c : Char) : List Nat :=
  let v := c.toNat
  if v < 0x80 then [v]
  else if v < 0x800 then [0xC0 + v / 0x40, 0x80 + v % 0x40]
  else if v < 0x10000 then
    [0xE0 + v / 0x1000, 0x80 + v / 0x40 % 0x40, 0x80 + v % 0x40]
  else
    [0xF0 + v / 0x40000, 0x80 + v / 0x1000 % 0x40, 0x80 + v / 0x40 % 0x40,
      0x80 + v % 0x40]

/-- `%XY` escape (uppercase) of one byte. -/
def hexByte (b : Nat) : List Char := ['%', hexDigitChar (b / 16), hexDigitChar (b % 16)]

/-- `uriMark`: the punctuation left unescaped by `encodeURI`. -/
def uriMark (c : Char) : Bool :=
  c = '-' || c = '_' || c = '.' || c = '!' || c = '~' || c = '*' || c = squote ||
    c = '(' || c = ')'

/-- `uriReserved`: the reserved separators left unescaped by `encodeURI` and
whose escapes are left untouched by `decodeURI`. -/
def uriReserved (c : Char) : Bool :=
  c = ';' || c = '/' || c = '?' || c = ':' || c = '@' || c = '&' || c = '=' ||
    c = '+' || c = '$' || c = ','

/-- The full unescaped set of `encodeURI`:
`uriAlpha ∪ DecimalDigit ∪ uriMark ∪ uriReserved ∪ {#}`. -/
def uriKeep (c : Char) : Bool := isAsciiAlnum c || uriMark c || uriReserved c || c = '#'

/-- The escapes `decodeURI` leaves in place: `uriReserved ∪ {#}`. -/
def uriPreserve (c : Char) : Bool := uriReserved c || c = '#'

/-- `encodeURI` on one code point: kept literally, or percent-escaped
byte-by-byte. -/
def encChar (c : Char) : List Char :=
  if uriKeep c then [c]
  else match utf8Bytes c with
    | [] => []
    | [b0] => hexByte b0
    | [b0, b1] => hexByte b0 ++ hexByte b1
    | [b0, b1, b2] => hexByte b0 ++ hexByte b1 ++ hexByte b2
    | b0 :: b1 :: b2 :: b3 :: _ => hexByte b0 ++ hexByte b1 ++ hexByte b2 ++ hexByte b3

/-- JavaScript `encodeURI`. -/
def encodeURIL : List Char → List Char
  | [] => []
  | c :: r => encChar c ++ encodeURIL r

/-- One lexical unit of `decodeURI`: a literal character, or a `%XY` escape
carrying its byte value together with the original two hex characters (the
original text is needed because escapes of reserved characters are kept
verbatim). -/
inductive Tok where
  | lit : Char → Tok
  | esc : Nat → Char → Char → Tok

/-- First phase of `decodeURI`: split the input into literal characters and
`%XY` escapes; a `%` not followed by two hex digits raises `URIError`
(`none`). -/
def decodeTokens : List Char → Option (List Tok)
  | [] => some []
  | c :: rest =>
    if c = '%' then
      match rest with
      | h1 :: h2 :: rest2 =>
        match hexVal h1, hexVal h2 with
        | some d1, some d2 =>
          (decodeTokens rest2).map (fun ts => Tok.esc (16 * d1 + d2) h1 h2 :: ts)
        | _, _ => none
      | _ => none
    else (decodeTokens rest).map (fun ts => Tok.lit c :: ts)

mutual

/-- Second phase of `decodeURI` (ECMA-262 `Decode` with `preservedSet =
uriReserved ∪ {#}`): literals pass through; an escaped byte below `0x80`
decodes to its character unless that character is in the preserved set, in
which case the original `%XY` text is kept; an escaped byte starting a
multi-byte UTF-8 sequence must be followed by the right number of escaped
continuation bytes forming a shortest-form encoding of a Unicode scalar
value (the `0xE0`/`0xED`/`0xF0`/`0xF4` bounds exclude overlong encodings and
surrogates); anything else raises `URIError` (`none`).  The continuation
bytes are consumed one per helper (`decodeAsm2` for the single continuation
of a 2-byte lead, `decodeAsm3`/`decodeAsmCont1` for a 3-byte lead,
`decodeAsm4`/`decodeAsmCont2`/`decodeAsmCont1` for a 4-byte lead, each
accumulating the partial scalar value). -/
def decodeAssemble : List Tok → Option (List Char)
  | [] => some []
  | Tok.lit c :: ts => (decodeAssemble ts).map (fun t => c :: t)
  | Tok.esc b h1 h2 :: ts =>
    if b < 0x80 then
      if uriPreserve (Char.ofNat b) then
        (decodeAssemble ts).map (fun t => '%' :: h1 :: h2 :: t)
      else (decodeAssemble ts).map (fun t => Char.ofNat b :: t)
    else if 0xC2 ≤ b ∧ b ≤ 0xDF then decodeAsm2 b ts
    else if 0xE0 ≤ b ∧ b ≤ 0xEF then decodeAsm3 b ts
    else if 0xF0 ≤ b ∧ b ≤ 0xF4 then decodeAsm4 b ts
    else none

def decodeAsm2 (b : Nat) : List Tok → Option (List Char)
  | Tok.esc b1 _ _ :: ts =>
    if 0x80 ≤ b1 ∧ b1 ≤ 0xBF then
      (decodeAssemble ts).map (fun t => Char.ofNat ((b - 0xC0) * 0x40 + (b1 - 0x80)) :: t)
    else none
  | _ => none

def decodeAsm3 (b : Nat) : List Tok → Option (List Char)
  | Tok.esc b1 _ _ :: ts =>
    if (if b = 0xE0 then 0xA0 else 0x80) ≤ b1 ∧
        b1 ≤ (if b = 0xED then 0x9F else 0xBF) then
      decodeAsmCont1 ((b - 0xE0) * 0x1000 + (b1 - 0x80) * 0x40) ts
    else none
  | _ => none

def decodeAsm4 (b : Nat) : List Tok → Option (List Char)
  | Tok.esc b1 _ _ :: ts =>
    if (if b = 0xF0 then 0x90 else 0x80) ≤ b1 ∧
        b1 ≤ (if b = 0xF4 then 0x8F else 0xBF) then
      decodeAsmCont2 ((b - 0xF0) * 0x40000 + (b1 - 0x80) * 0x1000) ts
    else none
  | _ => none

def decodeAsmCont2 (acc : Nat) : List Tok → Option (List Char)
  | Tok.esc b2 _ _ :: ts =>
    if 0x80 ≤ b2 ∧ b2 ≤ 0xBF then decodeAsmCont1 (acc + (b2 - 0x80) * 0x40) ts
    else none
  | _ => none

def decodeAsmCont1 (acc : Nat) : List Tok → Option (List Char)
  | Tok.esc b2 _ _ :: ts =>
    if 0x80 ≤ b2 ∧ b2 ≤ 0xBF then
      (decodeAssemble ts).map (fun t => Char.ofNat (acc + (b2 - 0x80)) :: t)
    else none
  | _ => none

end

/-- JavaScript `decodeURI`: tokenize, then assemble; `none` models a thrown
`URIError`. -/
def decodeURIL (l : List Char) : Option (List Char) :=
  (decodeTokens l).bind decodeAssemble

/-- The escape token produced by `encodeURI` for one byte. -/
def escTok (b : Nat) : Tok := Tok.esc b (hexDigitChar (b / 16)) (hexDigitChar (b % 16))

/-- The token sequence produced by `encodeURI` for one code point. -/
def encToks (c : Char) : List Tok :=
  if uriKeep c then [Tok.lit c] else (utf8Bytes c).map escTok

/-- The token sequence produced by `encodeURI` for a string. -/
def encodeToks : List Char → List Tok
  | [] => []
  | c :: r => encToks c ++ encodeToks r

/-- The path normalizer of `src/unnamed/part_002` (`normalizePath`, lines
69–82): like `normalizePathA` but the trimmed path is first passed through
`encodeURI(decodeURI(path))`, falling back to `encodeURI(path)` when
`decodeURI` throws. -/
def normalizePathB (input : List Char) : List Char :=
  let path := jsTrim input
  if path = [] then ['/']
  else
    let path := match decodeURIL path with
      | some d => encodeURIL d
      | none => encodeURIL path
    let path := if path.head? = some '/' then path else '/' :: path
    let path := collapseSlashes path
    let hasExt := hasExtSuffix path
    if path ≠ ['/'] ∧ hasExt = false ∧ path.getLast? ≠ some '/' then path ++ ['/']
    else path

/-! ## SQL Gateway (`src/functions/api/rank.js`, `formatSqlValue` /
`formatSqlWithParams`, lines 23–33; identical in `src/unnamed/part_001` and
`src/unnamed/part_002`) -/

/-- A positional SQL parameter as passed to `formatSqlWithParams`.  `vNull`
covers JavaScript `null` and `undefined`; `vNum` is a finite JavaScript
number (only integral values occur in this code base, so it is modelled by
`Int`); every other value is stringified first, so it is a `vStr`. -/
inductive SqlValue where
  | vNull : SqlValue
  | vNum : Int → SqlValue
  | vStr : List Char → SqlValue
deriving DecidableEq

/-- `String(value).replace(/'/g, "''")`: double every single quote. -/
def escQuotes : List Char → List Char
  | [] => []
  | c :: r => if c = squote then squote :: squote :: escQuotes r else c :: escQuotes r

/-- Decimal digits of a natural number, least significant first; the first
argument is structural fuel (`n + 1` is always sufficient, as a number has
at most `n + 1` decimal digits). -/
def natCharsRev : Nat → Nat → List Char
  | 0, _ => []
  | fuel + 1, n =>
    if n < 10 then [hexDigitChar n]
    else hexDigitChar (n % 10) :: natCharsRev fuel (n / 10)

/-- Decimal digits of a natural number (`String(value)` for a non-negative
integral number). -/
def natChars (n : Nat) : List Char := (natCharsRev (n + 1) n).reverse

/-- `String(value)` for a finite integral JavaScript number. -/
def intChars (n : Int) : List Char :=
  if n < 0 then '-' :: natChars n.natAbs else natChars n.natAbs

/-- `formatSqlValue` (rank.js lines 23–27): `null`/`undefined` render as
`NULL`, a finite number renders as its plain text, anything else as a
single-quoted literal with quotes doubled. -/
def formatSqlValue : SqlValue → List Char
  | .vNull => "NULL".toList
  | .vNum n => intChars n
  | .vStr s => squote :: (escQuotes s ++ [squote])

/-- The replacement text for one `?`: `formatSqlValue(params[index++])`,
where reading past the end of `params` yields `undefined`, rendered `NULL`. -/
def renderAt (ps : List SqlValue) : List Char :=
  match ps with
  | [] => "NULL".toList
  | p :: _ => formatSqlValue p

/-- The single left-to-right pass of `sql.replace(/\?/g, () =>
formatSqlValue(params[index++]))`: each `?` of the original template is
replaced by the rendering of the next parameter; replacement text is emitted
wholesale and never rescanned. -/
def substQ : List Char → List SqlValue → List Char
  | [], _ => []
  | c :: r, ps =>
    if c = '?' then renderAt ps ++ substQ r ps.tail
    else c :: substQ r ps

/-- `formatSqlWithParams` (rank.js lines 29–33): with an empty parameter
list the template is returned unchanged, otherwise the placeholder pass
runs. -/
def formatSqlWithParams (sql : List Char) (params : List SqlValue) : List Char :=
  if params = [] then sql else substQ sql params

/-- Specification-side decomposition of a template at its `?` placeholders:
the list of placeholder-free segments between consecutive `?`s. -/
def splitOnQ : List Char → List (List Char)
  | [] => [[]]
  | c :: r =>
    if c = '?' then [] :: splitOnQ r
    else match splitOnQ r with
      | s :: rest => (c :: s) :: rest
      | [] => [[c]]

/-- Specification-side re-assembly: interleave the template segments with
the renderings of the successive parameters. -/
def joinRenders : List (List Char) → List SqlValue → List Char
  | [], _ => []
  | [s], _ => s
  | s :: s2 :: segs, ps => s ++ renderAt ps ++ joinRenders (s2 :: segs) ps.tail

/-- Every single quote of the list occurs as part of an adjacent pair (the
shape produced by quote doubling: no lone quote survives). -/
def quotesDoubled : List Char → Bool
  | [] => true
  | c :: r =>
    if c = squote then
      match r with
      | d :: r2 => if d = squote then quotesDoubled r2 else false
      | [] => false
    else quotesDoubled r

/-! ## Analytics aggregates (`src/functions/api/rank.js` lines 110–147,
`src/functions/api/visit.js` lines 62–143, `src/unnamed/part_002` lines
122–199)

The remote analytics engine is abstracted as an outcome oracle mapping each
sub-query to either a thrown error (`Except.error`, covering network
failures, non-2xx statuses and error envelopes raised by `runSqlApi` /
`binding.query`) or a JSON result value. -/

/-- JSON values as delivered by the analytics engine. -/
inductive Json where
  | jNull : Json
  | jBool : Bool → Json
  | jNum : Int → Json
  | jStr : String → Json
  | jArr : List Json → Json
  | jObj : List (String × Json) → Json

/-- JavaScript truthiness of a JSON value (`!result`): `null`/`undefined`,
`false`, `0` and `""` are falsy. -/
def jsTruthy : Json → Bool
  | .jNull => false
  | .jBool b => b
  | .jNum n => !(n == 0)
  | .jStr s => !(s == "")
  | .jArr _ => true
  | .jObj _ => true

/-- Property lookup `o[key]` on an object's field list. -/
def getField (fields : List (String × Json)) (key : String) : Option Json :=
  (fields.find? (fun f => f.1 == key)).map (fun f => f.2)

/-- `unwrapRows` of rank.js (lines 110–119; identical in part_001/part_002):
try, in order, the known envelope shapes and fall back to the empty list. -/
def unwrapRowsRank (result : Json) : List Json :=
  if !jsTruthy result then []
  else match result with
    | .jArr l => l
    | .jObj fields =>
      match getField fields "result" with
      | some (.jArr l) => l
      | some (.jObj inner) =>
        match getField inner "data" with
        | some (.jArr l) => l
        | _ =>
          match getField fields "results" with
          | some (.jArr l) => l
          | _ =>
            match getField fields "data" with
            | some (.jArr l) => l
            | _ =>
              match getField fields "rows" with
              | some (.jArr l) => l
              | _ => []
      | _ =>
        match getField fields "results" with
        | some (.jArr l) => l
        | _ =>
          match getField fields "data" with
          | some (.jArr l) => l
          | _ =>
            match getField fields "rows" with
            | some (.jArr l) => l
            | _ => []
    | _ => []

/-- `unwrapRows` of visit.js (lines 62–69): as in rank.js but without the
`.result` / `.result.data` conventions. -/
def unwrapRowsVisit (result : Json) : List Json :=
  if !jsTruthy result then []
  else match result with
    | .jArr l => l
    | .jObj fields =>
      match getField fields "results" with
      | some (.jArr l) => l
      | _ =>
        match getField fields "data" with
        | some (.jArr l) => l
        | _ =>
          match getField fields "rows" with
          | some (.jArr l) => l
          | _ => []
    | _ => []

/-- JavaScript `Number(value)` restricted to the values that occur in
analytics rows, as an optional integer (`none` = `NaN` or a non-finite or
non-integral result; the responses of the analytics engine only carry
integral counts).  Strings are modelled as numeric text only when they are a
plain optionally-signed decimal integer. -/
def jsNumber : Json → Option Int
  | .jNull => some 0
  | .jBool b => some (if b then 1 else 0)
  | .jNum n => some n
  | .jStr s =>
    match s.toList with
    | [] => some 0
    | '-' :: ds => if ds ≠ [] ∧ ds.all (fun c => 48 ≤ c.toNat && c.toNat ≤ 57) then
        some (-(ds.foldl (fun a c => 10 * a + (c.toNat - 48) : Nat → Char → Nat) 0 : Nat))
      else none
    | ds => if ds.all (fun c => 48 ≤ c.toNat && c.toNat ≤ 57) then
        some (ds.foldl (fun a c => 10 * a + (c.toNat - 48) : Nat → Char → Nat) 0 : Nat)
      else none
  | .jArr _ => none
  | .jObj _ => none

/-- `getNumber` (rank.js lines 121–127 / visit.js lines 71–77), with thrown
`TypeError`s made explicit: the first row's `key` field (or its first field
when `key` is absent) coerced to a number, `0` when that is not finite or
there are no rows; using `key in row` on a primitive row throws, which the
enclosing `try` of `queryNumber` turns into the fallback. -/
def getNumberE (rows : List Json) (key : String) : Except String Int :=
  match rows with
  | [] => .ok 0
  | row :: _ =>
    match row with
    | .jObj fields =>
      let value : Option Json :=
        match getField fields key with
        | some v => some v
        | none => fields.head?.map (fun f => f.2)
      .ok (match value.bind jsNumber with
        | some n => n
        | none => 0)
    | .jArr elems =>
      .ok (match elems.head?.bind jsNumber with
        | some n => n
        | none => 0)
    | _ => .error "TypeError: cannot use in operator on a primitive"

/-- `queryNumber` (rank.js lines 129–137 / visit.js lines 79–87): run the
sub-query and extract the aggregate; any failure — of the query itself or of
the extraction — yields the caller-supplied fallback. -/
def queryNumber (unwrap : Json → List Json) (run : Except String Json)
    (key : String) (fallback : Int) : Int :=
  match run with
  | .error _ => fallback
  | .ok j =>
    match getNumberE (unwrap j) key with
    | .error _ => fallback
    | .ok n => n

/-- `queryRows` (rank.js lines 139–147): as `queryNumber` but returning the
raw rows with `[]` as the fallback. -/
def queryRows (unwrap : Json → List Json) (run : Except String Json) : List Json :=
  match run with
  | .error _ => []
  | .ok j => unwrap j

/-- The independent analytics sub-queries issued by the rank and visit
handlers. -/
inductive AQuery where
  | qTotal : AQuery
  | qMonth : AQuery
  | qWeek : AQuery
  | qDay : AQuery
  | qPages : AQuery
  | qPagePv : AQuery
  | qSitePv : AQuery
  | qSiteUv : AQuery
deriving DecidableEq

/-- The `summary` object of rank.js `onRequestGet` (lines 149–201). -/
structure RankSummary where
  total : Int
  month : Int
  week : Int
  day : Int
deriving DecidableEq

/-- The aggregate wiring of rank.js `onRequestGet`: four `queryNumber` calls
with fallback `0` plus one `queryRows` call ("pages") with fallback `[]`,
each over its own sub-query. -/
def rankSummary (oracle : AQuery → Except String Json) : RankSummary :=
  { total := queryNumber unwrapRowsRank (oracle .qTotal) "pv" 0
    month := queryNumber unwrapRowsRank (oracle .qMonth) "pv" 0
    week := queryNumber unwrapRowsRank (oracle .qWeek) "pv" 0
    day := queryNumber unwrapRowsRank (oracle .qDay) "pv" 0 }

/-- The `pages` rows of rank.js `onRequestGet` before display mapping. -/
def rankPages (oracle : AQuery → Except String Json) : List Json :=
  queryRows unwrapRowsRank (oracle .qPages)

/-- The response body of visit.js `onRequestGet` (lines 103–176). -/
structure VisitResp where
  page_pv : Int
  site_pv : Int
  site_uv : Int
deriving DecidableEq

/-- The aggregate wiring of visit.js `onRequestGet` (lines 126–143):
`page_pv` and `site_pv` are queried with fallback `0`; `site_uv` is then
queried with the just-computed `site_pv` as its fallback.  (Identical wiring
in `src/unnamed/part_002`, lines 175–192.) -/
def visitResponse (oracle : AQuery → Except String Json) : VisitResp :=
  let pagePv := queryNumber unwrapRowsVisit (oracle .qPagePv) "pv" 0
  let sitePv := queryNumber unwrapRowsVisit (oracle .qSitePv) "pv" 0
  let siteUv := queryNumber unwrapRowsVisit (oracle .qSiteUv) "uv" sitePv
  { page_pv := pagePv, site_pv := sitePv, site_uv := siteUv }

/-! ## Keep-alive configuration records

Three record layouts occur in the repository:

* `UserConfigW` — `src/worker.ts` (one config per user, token field);
* `UserConfigA` — `src/unnamed/part_004` and the first program of
  `src/unnamed/part_003` (multi-config, no auth);
* `UserConfigB` — the second program of `src/unnamed/part_003`
  (multi-config, token auth, random execution offset).

The KV namespace is modelled as an association list from key strings to
already-decoded records (every store mutation in the source is a full
read-modify-write of one serialized record, and `JSON.parse ∘ JSON.stringify`
is the identity on these flat records). -/

/-- `UserConfig` of `src/worker.ts` (lines 7–16). -/
structure UserConfigW where
  userId : String
  stvUID : String
  cookie : String
  isActive : Bool
  lastExecuted : Option String
  lastResult : Option String
  createdAt : String
  userToken : String
deriving DecidableEq

/-- `UserConfig` of `src/unnamed/part_004` (lines 7–18) and of the first
program of `src/unnamed/part_003` (lines 7–18). -/
structure UserConfigA where
  configId : String
  userId : String
  configName : String
  stvUID : String
  cookie : String
  isActive : Bool
  lastExecuted : Option String
  lastResult : Option String
  createdAt : String
  executionCount : Option Nat
deriving DecidableEq

/-- `UserConfig` of the second program of `src/unnamed/part_003` (lines
768–780). -/
structure UserConfigB where
  configId : String
  userId : String
  configName : String
  stvUID : String
  cookie : String
  isActive : Bool
  lastExecuted : Option String
  lastResult : Option String
  createdAt : String
  userToken : String
  executionOffset : Option Nat
deriving DecidableEq

/-- `UserAuth` of `src/worker.ts` (lines 18–22) and of the second program of
`src/unnamed/part_003` (lines 782–786). -/
structure UserAuth where
  userId : String
  userToken : String
  createdAt : String
deriving DecidableEq

/-- Key-value store with values of type `α`. -/
abbrev KVStore (α : Type) : Type := List (String × α)

/-- `KV.get` — the value stored under a key (`null` when absent). -/
def kvGet {α : Type} (store : KVStore α) (k : String) : Option α :=
  (store.find? (fun e => e.1 == k)).map (fun e => e.2)

/-- `KV.put` — whole-record overwrite of one key. -/
def kvPut {α : Type} (store : KVStore α) (k : String) (v : α) : KVStore α :=
  match store with
  | [] => [(k, v)]
  | e :: r => if e.1 == k then (k, v) :: r else e :: kvPut r k v

/-- `KV.delete` — removal of one key; deleting an absent key is a no-op. -/
def kvDelete {α : Type} (store : KVStore α) (k : String) : KVStore α :=
  store.filter (fun e => !(e.1 == k))

/-- A minimal view of the JSON API responses: HTTP status plus the `success`
and `error` fields of the body. -/
structure ApiResp where
  status : Nat
  success : Bool
  error : Option String
deriving DecidableEq

/-! ## Sweep executors (claim C2) -/

/-- `a.isPrefixOf b` on character lists (used by the substring test). -/
def isPrefixL : List Char → List Char → Bool
  | [], _ => true
  | _ :: _, [] => false
  | a :: p, b :: h => a == b && isPrefixL p h

/-- JavaScript `haystack.includes(pat)`: contiguous substring test. -/
def containsSeq (pat : List Char) : List Char → Bool
  | [] => pat.isEmpty
  | c :: r => isPrefixL pat (c :: r) || containsSeq pat r

/-- The outcome of one `fetch` of the keep-alive endpoint as observed by
`src/unnamed/part_004`'s `executeHangupRequest`: a thrown network error, or
a response with its `ok` flag, status code and body text. -/
structure FetchResp where
  ok : Bool
  status : Nat
  body : String
deriving DecidableEq

/-- `executeSTVOnlineRequest` of `src/worker.ts` (lines 465–503), abstracted
at its boundary: it either throws (network failure, non-2xx status, or the
"not logged in" marker in the body — `Except.error` with the message) or
returns the response body text. -/
def CallOutcomeW : Type := Except String String

/-- The sweep `executeHangupTasks` of `src/worker.ts` (lines 418–462) over
the listed config records: every stored record is visited in order; an
active record's keep-alive call is attempted and — on success or failure
alike — `lastExecuted`/`lastResult` are rewritten and the record persisted;
an inactive record is left untouched; a failure never stops the loop. -/
def executeHangupTasksW (now : String) (call : UserConfigW → CallOutcomeW) :
    List UserConfigW → List UserConfigW
  | [] => []
  | cfg :: rest =>
    if cfg.isActive then
      (match call cfg with
        | .ok r =>
          { cfg with lastExecuted := some now, lastResult := some ("成功: " ++ r) }
        | .error e =>
          { cfg with lastExecuted := some now, lastResult := some ("失败: " ++ e) }) ::
        executeHangupTasksW now call rest
    else cfg :: executeHangupTasksW now call rest

/-- `executeHangupRequest` of `src/unnamed/part_004` (lines 794–832): the
outcome of the single outbound call is folded into the record — success is
`response.ok` together with a body marker or status 200; the stored failure
message embeds at most 100 characters of the body; a thrown error is caught
and recorded; in every case `lastExecuted` is set and `executionCount`
incremented. -/
def executeHangupRequestA (now : String) (resp : Except String FetchResp)
    (cfg : UserConfigA) : UserConfigA :=
  match resp with
  | .ok r =>
    let success := r.ok &&
      (containsSeq "success".toList r.body.toList ||
        containsSeq "ok".toList r.body.toList || r.status == 200)
    { cfg with
      lastExecuted := some now
      lastResult := some (if success then "✅ 成功"
        else "❌ 失败: " ++ String.mk (r.body.toList.take 100))
      executionCount := some (cfg.executionCount.getD 0 + 1) }
  | .error e =>
    { cfg with
      lastExecuted := some now
      lastResult := some ("❌ 错误: " ++ e)
      executionCount := some (cfg.executionCount.getD 0 + 1) }

/-- The sweep `executeAllHangupTasks` of `src/unnamed/part_004` (lines
759–792): every listed record is visited in order, inactive records are
skipped, and each active record is processed by `executeHangupRequestA`
inside a per-record `try`/`catch`, so nothing aborts the loop. -/
def executeAllHangupTasksA (now : String) (resp : UserConfigA → Except String FetchResp) :
    List UserConfigA → List UserConfigA
  | [] => []
  | cfg :: rest =>
    if cfg.isActive then
      executeHangupRequestA now (resp cfg) cfg :: executeAllHangupTasksA now resp rest
    else cfg :: executeAllHangupTasksA now resp rest

/-! ## Scheduling-offset model (claim C1, second program of
`src/unnamed/part_003`) -/

/-- `generateExecutionOffset` (part_003 lines 820–823):
`Math.floor(Math.random() * 60)` for a random draw `r ∈ [0, 1)`. -/
def generateExecutionOffset (r : ℚ) : Nat := (Int.toNat ⌊r * 60⌋)

/-- `shouldExecuteNow` (part_003 lines 1380–1389): never executed before, or
at least five minutes of wall clock since `lastExecuted`
(`diffMinutes = (now - last) / 60000 ≥ 5`, i.e. `now - last ≥ 300000` ms;
with a clock that went backwards the difference is negative, hence below
five minutes, which truncated `Nat` subtraction also yields). -/
def shouldExecuteNowB (nowMs : Nat) (lastExecutedMs : Option Nat) : Bool :=
  match lastExecutedMs with
  | none => true
  | some lastMs => 300000 ≤ nowMs - lastMs

/-- `new Date().getSeconds()`: the seconds field of the current time, equal
to `epochSeconds mod 60` (every standard time-zone offset is a whole number
of minutes). -/
def currentSecondsOf (nowMs : Nat) : Nat := nowMs / 1000 % 60

/-- The due predicate evaluated per active config by `executeHangupTasks`
(part_003 lines 1339–1346): the elapsed-time guard `shouldExecuteNow`
together with `currentSeconds === (config.executionOffset || 0)`. -/
def isDueB (nowMs : Nat) (lastExecutedMs : Option Nat)
    (executionOffset : Option Nat) : Bool :=
  shouldExecuteNowB nowMs lastExecutedMs &&
    (currentSecondsOf nowMs == executionOffset.getD 0)

/-- The modular distance of the claim: `min(|p - t|, W - |p - t|)`,
wraparound-aware distance between two positions in a cycle of length `W`. -/
def modDist (p t w : Nat) : Nat :=
  min (max p t - min p t) (w - (max p t - min p t))

/-! ## List projections (claim C3) -/

/-- The record shape returned per config by `getUserConfigs` of
`src/unnamed/part_004` (lines 834–852): the stored record after
`delete config.cookie`. -/
structure ListedConfigA where
  configId : String
  userId : String
  configName : String
  stvUID : String
  isActive : Bool
  lastExecuted : Option String
  lastResult : Option String
  createdAt : String
  executionCount : Option Nat
deriving DecidableEq

/-- The per-record projection performed by part_004's `getUserConfigs`. -/
def listedOfConfigA (cfg : UserConfigA) : ListedConfigA :=
  { configId := cfg.configId
    userId := cfg.userId
    configName := cfg.configName
    stvUID := cfg.stvUID
    isActive := cfg.isActive
    lastExecuted := cfg.lastExecuted
    lastResult := cfg.lastResult
    createdAt := cfg.createdAt
    executionCount := cfg.executionCount }

/-- `getUserConfigs` of `src/unnamed/part_004`: list the records under the
caller's prefix and strip the `cookie` field from each. -/
def getUserConfigsA (userId : String) (store : KVStore UserConfigA) :
    List ListedConfigA :=
  (store.filter (fun e => ("stv_config:" ++ userId ++ ":").isPrefixOf e.1)).map
    (fun e => listedOfConfigA e.2)

/-- The record shape returned per config by `getUserConfigs` of the second
program of `src/unnamed/part_003` (lines 1099–1151): an explicit projection
that replaces the credential by the boolean `cookieExists = !!config.cookie`. -/
structure ListedConfigB where
  configId : String
  configName : String
  stvUID : String
  isActive : Bool
  lastExecuted : Option String
  lastResult : Option String
  executionOffset : Option Nat
  createdAt : String
  cookieExists : Bool
deriving DecidableEq

/-- The per-record projection performed by part_003's `getUserConfigs`. -/
def listedOfConfigB (cfg : UserConfigB) : ListedConfigB :=
  { configId := cfg.configId
    configName := cfg.configName
    stvUID := cfg.stvUID
    isActive := cfg.isActive
    lastExecuted := cfg.lastExecuted
    lastResult := cfg.lastResult
    executionOffset := cfg.executionOffset
    createdAt := cfg.createdAt
    cookieExists := !(cfg.cookie == "") }

/-- `getUserConfigs` of part_003's second program: list the records under
the caller's prefix and project each one. -/
def getUserConfigsB (userId : String) (store : KVStore UserConfigB) :
    List ListedConfigB :=
  (store.filter (fun e => ("stv_config:" ++ userId ++ ":").isPrefixOf e.1)).map
    (fun e => listedOfConfigB e.2)

/-- The string-valued data of one listed part_004 record (the values that
can appear in the serialized `configs` payload for that record). -/
def listedStringsA (l : ListedConfigA) : List String :=
  [l.configId, l.userId, l.configName, l.stvUID, l.createdAt] ++
    l.lastExecuted.toList ++ l.lastResult.toList

/-- The string-valued data of one listed part_003 record. -/
def listedStringsB (l : ListedConfigB) : List String :=
  [l.configId, l.configName, l.stvUID, l.createdAt] ++
    l.lastExecuted.toList ++ l.lastResult.toList

/-- The string-valued non-credential data of one stored part_004 record. -/
def storedStringsA (cfg : UserConfigA) : List String :=
  [cfg.configId, cfg.userId, cfg.configName, cfg.stvUID, cfg.createdAt] ++
    cfg.lastExecuted.toList ++ cfg.lastResult.toList

/-- The string-valued non-credential data of one stored part_003 record. -/
def storedStringsB (cfg : UserConfigB) : List String :=
  [cfg.configId, cfg.configName, cfg.stvUID, cfg.createdAt] ++
    cfg.lastExecuted.toList ++ cfg.lastResult.toList

/-- The create handler of `src/unnamed/part_004` (lines 64–86): the client
body is completed with a fresh `configId`, `isActive = true`, `createdAt`
and `executionCount = 0`, and stored under
`stv_config:{userId}:{configId}`. -/
def createConfigA (store : KVStore UserConfigA) (body : UserConfigA)
    (configId createdAt : String) : KVStore UserConfigA :=
  kvPut store ("stv_config:" ++ body.userId ++ ":" ++ configId)
    { body with
      configId := configId
      isActive := true
      createdAt := createdAt
      executionCount := some 0 }

/-! ## Auth check and delete handlers (claim C7) -/

/-- `verifyUserAuth` (part_003 lines 826–849 / worker.ts lines 56–66): the
stored auth record for the user must exist and carry the same token. -/
def verifyUserAuth (userId userToken : String) (authStore : KVStore UserAuth) : Bool :=
  if userId == "" || userToken == "" then false
  else match kvGet authStore ("auth:" ++ userId) with
    | none => false
    | some auth => auth.userToken == userToken

/-- The delete route of `src/unnamed/part_004` (lines 106–114):
`KV.delete` unconditionally, then `{success: true}` — no existence check. -/
def deleteConfigA (store : KVStore UserConfigA) (userId configId : String) :
    KVStore UserConfigA × ApiResp :=
  (kvDelete store ("stv_config:" ++ userId ++ ":" ++ configId),
    { status := 200, success := true, error := none })

/-- `deleteConfig` of the second program of `src/unnamed/part_003` (lines
1209–1259): after token verification the record is looked up, and a missing
record is answered with a 404 `配置不存在` error; only an existing record is
deleted. -/
def deleteConfigB (authStore : KVStore UserAuth) (store : KVStore UserConfigB)
    (userId userToken configId : String) : KVStore UserConfigB × ApiResp :=
  if !verifyUserAuth userId userToken authStore then
    (store, { status := 403, success := false, error := some "身份验证失败" })
  else
    let key := "stv_config:" ++ userId ++ ":" ++ configId
    match kvGet store key with
    | none => (store, { status := 404, success := false, error := some "配置不存在" })
    | some _ =>
      (kvDelete store key, { status := 200, success := true, error := none })

/-! ## Toggle handlers (claims C8, C9) -/

/-- The toggle route of the first program of `src/unnamed/part_003` (lines
117–140; identical in `src/unnamed/part_004`): load the record, flip
`isActive`, write the record back under the same key; 404 when absent. -/
def toggleConfigA (store : KVStore UserConfigA) (userId configId : String) :
    KVStore UserConfigA × ApiResp :=
  let key := "stv_config:" ++ userId ++ ":" ++ configId
  match kvGet store key with
  | none => (store, { status := 404, success := false, error := some "配置不存在" })
  | some cfg =>
    (kvPut store key { cfg with isActive := !cfg.isActive },
      { status := 200, success := true, error := none })

/-- `toggleHangup` of `src/worker.ts` (lines 293–333): after token
verification the record is loaded, `isActive` is overwritten with the value
sent by the client, and the record is written back under the same key; 404
when absent. -/
def toggleHangupW (authStore : KVStore UserAuth) (store : KVStore UserConfigW)
    (userId userToken : String) (isActive : Bool) :
    KVStore UserConfigW × ApiResp :=
  if !verifyUserAuth userId userToken authStore then
    (store, { status := 403, success := false, error := some "身份验证失败" })
  else
    let key := "stv_config:" ++ userId
    match kvGet store key with
    | none => (store, { status := 404, success := false, error := some "用户配置不存在" })
    | some cfg =>
      (kvPut store key { cfg with isActive := isActive },
        { status := 200, success := true, error := none })

/-- One toggle round trip as issued by the worker.ts management page
(`serveHangupPage`, line 878: `onclick="toggleHangup(${!config.isActive})"`):
the client sends the negation of the currently displayed — i.e. currently
stored — `isActive` value. -/
def clientToggleW (authStore : KVStore UserAuth) (store : KVStore UserConfigW)
    (userId userToken : String) : KVStore UserConfigW × ApiResp :=
  match kvGet store ("stv_config:" ++ userId) with
  | none => (store, { status := 404, success := false, error := some "用户配置不存在" })
  | some cfg => toggleHangupW authStore store userId userToken (!cfg.isActive)

/-! ## Concrete sample data used by the witness theorems -/

/-- A sample stored part_004-style config record. -/
def sampleConfigA : UserConfigA :=
  ⟨"c1", "u1", "n", "s77", "cookie=secret123", true, none, none, "t0", some 0⟩

/-- A sample stored worker.ts-style config record. -/
def sampleConfigW : UserConfigW :=
  ⟨"u1", "s77", "cookie=secret123", true, none, none, "t0", "tok"⟩

/-- A sample stored part_003-style config record. -/
def sampleConfigB : UserConfigB :=
  ⟨"c1", "u1", "n", "s77", "cookie=secret123", true, none, none, "t0", "tok", some 30⟩

/-- A sample auth store holding one user's token record. -/
def sampleAuthStore : KVStore UserAuth := [("auth:u1", ⟨"u1", "tok", "t0"⟩)]


/-- Sweep witness data: three active worker.ts configs for users u1, u2, u3. -/
def sweepCfg1 : UserConfigW := ⟨"u1", "s1", "ck1", true, none, none, "t0", "tk1"⟩

/-- Second sweep witness config (its outbound call will throw). -/
def sweepCfg2 : UserConfigW := ⟨"u2", "s2", "ck2", true, none, none, "t0", "tk2"⟩

/-- Third sweep witness config. -/
def sweepCfg3 : UserConfigW := ⟨"u3", "s3", "ck3", true, none, none, "t0", "tk3"⟩


/-- The shared tail of both path normalizers after the trim/empty check (and
after part_002's URI-coding step): ensure a leading slash, collapse repeated
slashes, and append a trailing slash unless the path is `/`, has an
extension-like suffix, or already ends in `/`.  `normalizePathA` and
`normalizePathB` are definitionally the trim/empty check followed by this
tail (theorems `normalizePathA_eq_tail` / `normalizePathB_eq_tail`). -/
def pathTail (w : List Char) : List Char :=
  let path := if w.head? = some '/' then w else '/' :: w
  let path := collapseSlashes path
  let hasExt := hasExtSuffix path
  if path ≠ ['/'] ∧ hasExt = false ∧ path.getLast? ≠ some '/' then path ++ ['/']
  else path

/-- The URI-coding step of part_002's normalizer:
`encodeURI(decodeURI(path))` with fallback `encodeURI(path)` when `decodeURI`
throws. -/
def gStep (p : List Char) : List Char :=
  match decodeURIL p with
  | some d => encodeURIL d
  | none => encodeURIL p


/-! # Theorems

Helper lemmas first, then one theorem per claim (witnesses and
counterexamples beside their claims). -/

/-! ## Quote escaping and decimal rendering (claim C5) -/

theorem quotesDoubled_escQuotes : ∀ s : List Char, quotesDoubled (escQuotes s) = true := by
  intro s
  induction s with
  | nil => rfl
  | cons c r ih =>
    by_cases hc : c = squote
    · simp [escQuotes, hc, quotesDoubled, ih]
    · rw [escQuotes, if_neg hc, quotesDoubled.eq_def]
      cases hE : escQuotes r with
      | nil => simp [hc, quotesDoubled]
      | cons d r2 => simp [hc, ← hE, ih]

theorem count_escQuotes (s : List Char) :
    (escQuotes s).count squote = 2 * s.count squote := by
  induction s with
  | nil => rfl
  | cons c r ih =>
    by_cases hc : c = squote
    · simp [escQuotes, hc, List.count_cons, ih]
      omega
    · simp [escQuotes, hc, List.count_cons, ih, Ne.symm hc]

theorem filter_escQuotes (s : List Char) :
    (escQuotes s).filter (fun c => !(c == squote)) =
      s.filter (fun c => !(c == squote)) := by
  induction s with
  | nil => rfl
  | cons c r ih =>
    by_cases hc : c = squote
    · simp [escQuotes, hc, List.filter_cons, ih]
    · have hb : (c == squote) = false := by simp [hc]
      simp [escQuotes, hc, List.filter_cons, hb, ih]

theorem digit_hexDigitChar (d : Nat) (h : d < 10) :
    48 ≤ (hexDigitChar d).toNat ∧ (hexDigitChar d).toNat ≤ 57 := by
  interval_cases d <;> decide

theorem natCharsRev_digits :
    ∀ (fuel n : Nat) (c : Char), c ∈ natCharsRev fuel n →
      48 ≤ c.toNat ∧ c.toNat ≤ 57 := by
  intro fuel
  induction fuel with
  | zero => intro n c hc; simp [natCharsRev] at hc
  | succ fuel ih =>
    intro n c hc
    by_cases hn : n < 10
    · simp [natCharsRev, hn] at hc
      subst hc
      exact digit_hexDigitChar n hn
    · simp [natCharsRev, hn] at hc
      rcases hc with hc | hc
      · subst hc
        exact digit_hexDigitChar (n % 10) (Nat.mod_lt _ (by omega))
      · exact ih _ _ hc

theorem squote_not_mem_intChars (n : Int) : squote ∉ intChars n := by
  intro hmem
  have hsq : squote.toNat = 39 := by decide
  unfold intChars at hmem
  split at hmem
  · rcases List.mem_cons.1 hmem with h | h
    · rw [h] at hsq; simp at hsq
    · unfold natChars at h
      rw [List.mem_reverse] at h
      have := natCharsRev_digits _ _ _ h
      omega
  · unfold natChars at hmem
    rw [List.mem_reverse] at hmem
    have := natCharsRev_digits _ _ _ hmem
    omega

/-! ## Placeholder substitution (claim C10) -/

theorem splitOnQ_ne_nil : ∀ l : List Char, splitOnQ l ≠ [] := by
  intro l
  cases l with
  | nil => simp [splitOnQ]
  | cons c r =>
    rw [splitOnQ]
    by_cases hc : c = '?'
    · simp [hc]
    · rw [if_neg hc]
      cases h : splitOnQ r <;> simp

theorem substQ_eq_joinRenders :
    ∀ (sql : List Char) (ps : List SqlValue),
      substQ sql ps = joinRenders (splitOnQ sql) ps := by
  intro sql
  induction sql with
  | nil => intro ps; rfl
  | cons c r ih =>
    intro ps
    by_cases hc : c = '?'
    · rw [substQ, if_pos hc, splitOnQ, if_pos hc]
      cases hs : splitOnQ r with
      | nil => exact absurd hs (splitOnQ_ne_nil r)
      | cons s rest =>
        rw [joinRenders]
        simp [← hs, ih]
    · rw [substQ, if_neg hc, splitOnQ, if_neg hc]
      cases hs : splitOnQ r with
      | nil => exact absurd hs (splitOnQ_ne_nil r)
      | cons s rest =>
        cases rest with
        | nil =>
          rw [joinRenders]
          have := ih ps
          rw [hs, joinRenders] at this
          rw [this]
        | cons s2 rest2 =>
          rw [joinRenders]
          have := ih ps
          rw [hs, joinRenders] at this
          simp [this]

theorem splitOnQ_no_placeholder :
    ∀ (l : List Char) (seg : List Char), seg ∈ splitOnQ l → '?' ∉ seg := by
  intro l
  induction l with
  | nil => intro seg hseg; simp [splitOnQ] at hseg; simp [hseg]
  | cons c r ih =>
    intro seg hseg
    rw [splitOnQ] at hseg
    by_cases hc : c = '?'
    · rw [if_pos hc] at hseg
      rcases List.mem_cons.1 hseg with h | h
      · simp [h]
      · exact ih seg h
    · rw [if_neg hc] at hseg
      cases hs : splitOnQ r with
      | nil => exact absurd hs (splitOnQ_ne_nil r)
      | cons s rest =>
        rw [hs] at hseg
        rcases List.mem_cons.1 hseg with h | h
        · subst h
          intro hmem
          rcases List.mem_cons.1 hmem with h | h
          · exact hc h.symm
          · exact ih s (hs ▸ List.mem_cons_self s rest) h
        · exact ih seg (hs ▸ List.mem_cons.2 (Or.inr h))

theorem splitOnQ_length :
    ∀ l : List Char, (splitOnQ l).length = l.count '?' + 1 := by
  intro l
  induction l with
  | nil => simp [splitOnQ]
  | cons c r ih =>
    rw [splitOnQ]
    by_cases hc : c = '?'
    · simp [hc, List.count_cons, ih]
    · rw [if_neg hc]
      cases hs : splitOnQ r with
      | nil => exact absurd hs (splitOnQ_ne_nil r)
      | cons s rest =>
        simp [List.count_cons, hc]
        have h2 := ih
        rw [hs] at h2
        simp at h2
        omega

/-- **C5.** For every SQL template and positional parameter list, the SQL
Gateway (`formatSqlValue`, rank.js lines 23–27) renders each string
parameter as a single-quoted literal with every single quote in the value
doubled — no lone quote survives in the escaped body, quotes exactly double
in count, and all other characters pass through unchanged — and renders each
finite numeric parameter unescaped, as its plain decimal text containing no
quote character; in particular a value containing a single quote yields a
rendered literal in which that quote is doubled. -/
theorem c5_sql_literal_rendering :
    ∀ (s : List Char) (n : Int),
      formatSqlValue (.vStr s) = squote :: (escQuotes s ++ [squote]) ∧
      quotesDoubled (escQuotes s) = true ∧
      (escQuotes s).count squote = 2 * s.count squote ∧
      (escQuotes s).filter (fun c => !(c == squote)) =
        s.filter (fun c => !(c == squote)) ∧
      formatSqlValue (.vNum n) = intChars n ∧
      squote ∉ intChars n := by
  intro s n
  exact ⟨rfl, quotesDoubled_escQuotes s, count_escQuotes s, filter_escQuotes s,
    rfl, squote_not_mem_intChars n⟩

/-- **C10.** Placeholder substitution (`formatSqlWithParams`, rank.js lines
29–33) is a single left-to-right pass over the original template: the
template splits at its `?` characters into placeholder-free segments, the
i-th `?` is replaced by the rendering of the i-th parameter (`NULL` once the
parameters are exhausted), rendered text is inserted wholesale between
segments so a `?` inside a rendered value is never itself substituted, and
an empty parameter list returns the template unchanged. -/
theorem c10_placeholder_single_pass :
    ∀ (sql : List Char) (params : List SqlValue),
      (params ≠ [] →
        formatSqlWithParams sql params = joinRenders (splitOnQ sql) params) ∧
      formatSqlWithParams sql [] = sql ∧
      (∀ seg ∈ splitOnQ sql, '?' ∉ seg) ∧
      (splitOnQ sql).length = sql.count '?' + 1 := by
  intro sql params
  refine ⟨fun hps => ?_, rfl, splitOnQ_no_placeholder sql, splitOnQ_length sql⟩
  rw [formatSqlWithParams, if_neg hps]
  exact substQ_eq_joinRenders sql params

/-- Witness for C10 at a concrete template and a parameter whose rendered
value contains both a quote and a `?`: the second placeholder renders
`NULL`, and the `?` inside the first rendered literal is not treated as a
placeholder. -/
theorem c10_placeholder_single_pass_witness :
    formatSqlWithParams "SELECT ?, ?".toList [.vStr ['a', '?', squote]] =
      joinRenders (splitOnQ "SELECT ?, ?".toList) [.vStr ['a', '?', squote]] ∧
    formatSqlWithParams "SELECT ?, ?".toList [.vStr ['a', '?', squote]] =
      ("SELECT ".toList ++ [squote, 'a', '?', squote, squote, squote] ++
        ", ".toList ++ "NULL".toList) := by
  constructor
  · exact (c10_placeholder_single_pass "SELECT ?, ?".toList
      [.vStr ['a', '?', squote]]).1 (by simp)
  · decide

/-! ## Analytics fallbacks (claim C6) -/

theorem queryNumber_error (unwrap : Json → List Json) (e : String)
    (key : String) (fb : Int) :
    queryNumber unwrap (.error e) key fb = fb := rfl

/-- **C6 — counterexample.** The claim says every reported aggregate's
sub-query failure is replaced by the fallback value 0.  At the concrete
oracle where only the site-unique-visitors sub-query fails, visit.js (lines
137–143) falls back to the just-computed `site_pv`: the response reports
`site_uv = 7`, not `0`. -/
theorem c6_counterexample_site_uv_fallback :
    ((fun q => match q with
      | AQuery.qSiteUv => (Except.error "sub-query failed" : Except String Json)
      | _ => Except.ok (Json.jArr [Json.jObj [("pv", Json.jNum 7)]])) AQuery.qSiteUv
        = Except.error "sub-query failed") ∧
    (visitResponse (fun q => match q with
      | AQuery.qSiteUv => (Except.error "sub-query failed" : Except String Json)
      | _ => Except.ok (Json.jArr [Json.jObj [("pv", Json.jNum 7)]]))).site_uv = 7 ∧
    ¬(visitResponse (fun q => match q with
      | AQuery.qSiteUv => (Except.error "sub-query failed" : Except String Json)
      | _ => Except.ok (Json.jArr [Json.jObj [("pv", Json.jNum 7)]]))).site_uv = 0 := by
  refine ⟨rfl, ?_, ?_⟩
  · rfl
  · intro h
    rw [show (visitResponse (fun q => match q with
      | AQuery.qSiteUv => (Except.error "sub-query failed" : Except String Json)
      | _ => Except.ok (Json.jArr [Json.jObj [("pv", Json.jNum 7)]]))).site_uv = 7 from rfl] at h
    exact absurd h (by norm_num)

/-- **C6 — amended.** Every reported aggregate is computed by its own
sub-query and a failed sub-query is replaced by its fallback — `0` for the
rank summaries, the pages list (`[]`), per-page page views and site page
views, while the visit endpoint's site unique visitors falls back to the
just-computed site page views — so no single failed sub-query fails the
overall response; moreover each aggregate depends only on its own
sub-query's outcome (`site_uv` also on `site_pv`'s). -/
theorem c6_aggregate_fallbacks :
    ∀ o : AQuery → Except String Json,
      ((∃ e, o .qTotal = .error e) → (rankSummary o).total = 0) ∧
      ((∃ e, o .qMonth = .error e) → (rankSummary o).month = 0) ∧
      ((∃ e, o .qWeek = .error e) → (rankSummary o).week = 0) ∧
      ((∃ e, o .qDay = .error e) → (rankSummary o).day = 0) ∧
      ((∃ e, o .qPages = .error e) → rankPages o = []) ∧
      ((∃ e, o .qPagePv = .error e) → (visitResponse o).page_pv = 0) ∧
      ((∃ e, o .qSitePv = .error e) → (visitResponse o).site_pv = 0) ∧
      ((∃ e, o .qSiteUv = .error e) →
        (visitResponse o).site_uv = (visitResponse o).site_pv) ∧
      (∀ o2 : AQuery → Except String Json,
        o2 .qTotal = o .qTotal → (rankSummary o2).total = (rankSummary o).total) ∧
      (∀ o2 : AQuery → Except String Json,
        o2 .qPagePv = o .qPagePv → (visitResponse o2).page_pv = (visitResponse o).page_pv) ∧
      (∀ o2 : AQuery → Except String Json,
        o2 .qSitePv = o .qSitePv → o2 .qSiteUv = o .qSiteUv →
          (visitResponse o2).site_uv = (visitResponse o).site_uv) := by
  intro o
  refine ⟨?_, ?_, ?_, ?_, ?_, ?_, ?_, ?_, ?_, ?_, ?_⟩
  · rintro ⟨e, he⟩; simp [rankSummary, he, queryNumber]
  · rintro ⟨e, he⟩; simp [rankSummary, he, queryNumber]
  · rintro ⟨e, he⟩; simp [rankSummary, he, queryNumber]
  · rintro ⟨e, he⟩; simp [rankSummary, he, queryNumber]
  · rintro ⟨e, he⟩; simp [rankPages, he, queryRows]
  · rintro ⟨e, he⟩; simp [visitResponse, he, queryNumber]
  · rintro ⟨e, he⟩; simp [visitResponse, he, queryNumber]
  · rintro ⟨e, he⟩; simp [visitResponse, he, queryNumber]
  · intro o2 h; simp [rankSummary, h]
  · intro o2 h; simp [visitResponse, h]
  · intro o2 h1 h2; simp [visitResponse, h1, h2]

/-- Witness for C6 (amended) at the all-failing oracle: the rank total
degrades to 0 and the visit endpoint's `site_uv` degrades to `site_pv`. -/
theorem c6_aggregate_fallbacks_witness :
    (rankSummary (fun _ => .error "down")).total = 0 ∧
    (visitResponse (fun _ => .error "down")).site_uv =
      (visitResponse (fun _ => .error "down")).site_pv := by
  have h := c6_aggregate_fallbacks (fun _ => .error "down")
  exact ⟨h.1 ⟨"down", rfl⟩, h.2.2.2.2.2.2.2.1 ⟨"down", rfl⟩⟩

/-! ## Key-value store lemmas -/

theorem kvGet_eq_none {α : Type} (store : KVStore α) (k : String)
    (h : kvGet store k = none) : ∀ e ∈ store, (e.1 == k) = false := by
  intro e he
  unfold kvGet at h
  rcases hf : store.find? (fun e => e.1 == k) with _ | v
  · have := List.find?_eq_none.1 hf e he
    simpa using this
  · rw [hf] at h; simp at h

theorem kvDelete_absent {α : Type} (store : KVStore α) (k : String)
    (h : kvGet store k = none) : kvDelete store k = store := by
  unfold kvDelete
  rw [List.filter_eq_self]
  intro e he
  rw [kvGet_eq_none store k h e he]
  rfl

theorem kvGet_put_same {α : Type} :
    ∀ (store : KVStore α) (k : String) (v : α), kvGet (kvPut store k v) k = some v := by
  intro store k v
  induction store with
  | nil => simp [kvPut, kvGet, List.find?]
  | cons e r ih =>
    rw [kvPut]
    by_cases he : (e.1 == k) = true
    · rw [if_pos he]
      simp [kvGet, List.find?]
    · rw [if_neg he]
      unfold kvGet at ih ⊢
      rw [List.find?]
      simp only [he]
      exact ih

theorem kvGet_put_other {α : Type} :
    ∀ (store : KVStore α) (k k2 : String) (v : α), k2 ≠ k →
      kvGet (kvPut store k v) k2 = kvGet store k2 := by
  intro store k k2 v hne
  have hk2 : (k == k2) = false := by
    simp only [beq_eq_false_iff_ne, ne_eq]
    exact fun h => hne h.symm
  induction store with
  | nil => simp [kvPut, kvGet, List.find?, hk2]
  | cons e r ih =>
    rw [kvPut]
    by_cases he : (e.1 == k) = true
    · rw [if_pos he]
      simp [kvGet, List.find?, hk2]
      have h1 : e.1 = k := by simpa using he
      simp [h1, hk2]
    · rw [if_neg he]
      unfold kvGet at ih ⊢
      rw [List.find?, List.find?]
      cases hq : (e.1 == k2) <;> simp [hq, ih]

/-! ## Delete handlers (claim C7) -/

/-- **C7 — counterexample.** The claim says deleting a nonexistent
`configId` returns success for every authorized user.  In part_003's
`deleteConfig` (lines 1209–1259) an authorized user (`u1` with its valid
stored token) deleting the nonexistent config `c1` receives a 404
`配置不存在` error response, not success. -/
theorem c7_counterexample_delete_missing_404 :
    verifyUserAuth "u1" "tok" [("auth:u1", ⟨"u1", "tok", "t0"⟩)] = true ∧
    deleteConfigB [("auth:u1", ⟨"u1", "tok", "t0"⟩)] ([] : KVStore UserConfigB)
        "u1" "tok" "c1" =
      ([], { status := 404, success := false, error := some "配置不存在" }) := by
  constructor
  · rfl
  · rfl

/-- **C7 — amended.** Delete is idempotent in the unauthenticated
multi-config variant (part_004 lines 106–114): deleting any — in particular
a nonexistent — `configId` answers success, and when no record exists the
store is left unchanged.  In the token-authenticated variant (part_003's
`deleteConfig`), deleting a nonexistent `configId` instead answers a 404
error and leaves the store unchanged. -/
theorem c7_delete_idempotent_variants :
    ∀ (storeA : KVStore UserConfigA) (uidA cidA : String)
      (authStore : KVStore UserAuth) (storeB : KVStore UserConfigB)
      (uidB tokB cidB : String),
      (deleteConfigA storeA uidA cidA).2 =
        { status := 200, success := true, error := none } ∧
      (kvGet storeA ("stv_config:" ++ uidA ++ ":" ++ cidA) = none →
        (deleteConfigA storeA uidA cidA).1 = storeA) ∧
      (verifyUserAuth uidB tokB authStore = true →
        kvGet storeB ("stv_config:" ++ uidB ++ ":" ++ cidB) = none →
        (deleteConfigB authStore storeB uidB tokB cidB).2 =
          { status := 404, success := false, error := some "配置不存在" } ∧
        (deleteConfigB authStore storeB uidB tokB cidB).1 = storeB) := by
  intro storeA uidA cidA authStore storeB uidB tokB cidB
  refine ⟨rfl, fun h => kvDelete_absent storeA _ h, fun hv habs => ?_⟩
  unfold deleteConfigB
  rw [hv]
  simp [habs]

/-- Witness for C7 (amended): deleting from the empty store succeeds and
leaves it empty in the part_004 variant, and 404s in the part_003 variant. -/
theorem c7_delete_idempotent_variants_witness :
    (deleteConfigA ([] : KVStore UserConfigA) "u1" "c1").1 = [] ∧
    (deleteConfigA ([] : KVStore UserConfigA) "u1" "c1").2.success = true ∧
    (deleteConfigB sampleAuthStore ([] : KVStore UserConfigB)
      "u1" "tok" "c1").2.status = 404 := by
  have h := c7_delete_idempotent_variants ([] : KVStore UserConfigA) "u1" "c1"
    sampleAuthStore ([] : KVStore UserConfigB) "u1" "tok" "c1"
  refine ⟨h.2.1 rfl, by rw [h.1], ?_⟩
  rw [(h.2.2 rfl rfl).1]

/-! ## Toggle handlers (claims C8, C9) -/

/-- **C8.** Toggle idempotence of intent: two successive toggle requests as
issued by the client leave the stored record's `isActive` equal to its
original value — in the flip-based route of part_003's first program (lines
117–140) two toggles restore `isActive`, and in the set-based
`toggleHangup` of worker.ts (lines 293–333) the management page sends the
negation of the currently stored value, so two client round trips also
restore `isActive`. -/
theorem c8_toggle_twice_restores_isActive :
    ∀ (storeA : KVStore UserConfigA) (uidA cidA : String) (cfgA : UserConfigA)
      (authStore : KVStore UserAuth) (storeW : KVStore UserConfigW)
      (uidW tokW : String) (cfgW : UserConfigW),
      (kvGet storeA ("stv_config:" ++ uidA ++ ":" ++ cidA) = some cfgA →
        ∃ cfg2,
          kvGet ((toggleConfigA (toggleConfigA storeA uidA cidA).1 uidA cidA).1)
              ("stv_config:" ++ uidA ++ ":" ++ cidA) = some cfg2 ∧
          cfg2.isActive = cfgA.isActive) ∧
      (verifyUserAuth uidW tokW authStore = true →
        kvGet storeW ("stv_config:" ++ uidW) = some cfgW →
        ∃ cfg2,
          kvGet ((clientToggleW authStore
              (clientToggleW authStore storeW uidW tokW).1 uidW tokW).1)
              ("stv_config:" ++ uidW) = some cfg2 ∧
          cfg2.isActive = cfgW.isActive) := by
  intro storeA uidA cidA cfgA authStore storeW uidW tokW cfgW
  constructor
  · intro h1
    have hstepA : ∀ (store : KVStore UserConfigA) (cfg : UserConfigA),
        kvGet store ("stv_config:" ++ uidA ++ ":" ++ cidA) = some cfg →
        (toggleConfigA store uidA cidA).1 =
          kvPut store ("stv_config:" ++ uidA ++ ":" ++ cidA)
            { cfg with isActive := !cfg.isActive } := by
      intro store cfg hg
      unfold toggleConfigA
      simp only [hg]
    have hs1 := hstepA storeA cfgA h1
    have h2 : kvGet (toggleConfigA storeA uidA cidA).1
        ("stv_config:" ++ uidA ++ ":" ++ cidA) =
        some { cfgA with isActive := !cfgA.isActive } := by
      rw [hs1]; exact kvGet_put_same _ _ _
    have hs2 := hstepA _ _ h2
    rw [hs2]
    refine ⟨_, kvGet_put_same _ _ _, ?_⟩
    simp
  · intro hv h1
    have hstep : ∀ (store : KVStore UserConfigW) (cfg : UserConfigW),
        kvGet store ("stv_config:" ++ uidW) = some cfg →
        (clientToggleW authStore store uidW tokW).1 =
          kvPut store ("stv_config:" ++ uidW) { cfg with isActive := !cfg.isActive } := by
      intro store cfg hg
      unfold clientToggleW toggleHangupW
      rw [hg, hv]
      simp [hg]
    have hs1 := hstep storeW cfgW h1
    have h2 : kvGet (clientToggleW authStore storeW uidW tokW).1
        ("stv_config:" ++ uidW) = some { cfgW with isActive := !cfgW.isActive } := by
      rw [hs1]; exact kvGet_put_same _ _ _
    have hs2 := hstep _ _ h2
    rw [hs2]
    refine ⟨_, kvGet_put_same _ _ _, ?_⟩
    simp

/-- Witness for C8 at a concrete one-record store (part_003 flip variant):
after two toggles the record is back to `isActive = true`. -/
theorem c8_toggle_twice_restores_isActive_witness :
    ∃ cfg2 : UserConfigA,
      kvGet ((toggleConfigA (toggleConfigA
          [("stv_config:u1:c1", sampleConfigA)] "u1" "c1").1 "u1" "c1").1)
          "stv_config:u1:c1" = some cfg2 ∧
      cfg2.isActive = true := by
  have h := (c8_toggle_twice_restores_isActive
    [("stv_config:u1:c1", sampleConfigA)] "u1" "c1" sampleConfigA
    [] [] "u" "t" sampleConfigW).1 (by rfl)
  exact h

/-- **C9.** A successful toggle rewrites the record under its original key
changing only `isActive`: the stored record after the toggle is exactly the
old record with `isActive` replaced (every other field — ids, names, the
credential, bookkeeping and timestamps — is unchanged), and every other key
of the store is untouched; this holds for the flip-based route of part_003's
first program and for worker.ts's set-based `toggleHangup`. -/
theorem c9_toggle_frame :
    ∀ (storeA : KVStore UserConfigA) (uidA cidA : String) (cfgA : UserConfigA)
      (authStore : KVStore UserAuth) (storeW : KVStore UserConfigW)
      (uidW tokW : String) (isActiveReq : Bool) (cfgW : UserConfigW),
      (kvGet storeA ("stv_config:" ++ uidA ++ ":" ++ cidA) = some cfgA →
        kvGet (toggleConfigA storeA uidA cidA).1
            ("stv_config:" ++ uidA ++ ":" ++ cidA) =
          some { cfgA with isActive := !cfgA.isActive } ∧
        (∀ k2, k2 ≠ "stv_config:" ++ uidA ++ ":" ++ cidA →
          kvGet (toggleConfigA storeA uidA cidA).1 k2 = kvGet storeA k2)) ∧
      (verifyUserAuth uidW tokW authStore = true →
        kvGet storeW ("stv_config:" ++ uidW) = some cfgW →
        kvGet (toggleHangupW authStore storeW uidW tokW isActiveReq).1
            ("stv_config:" ++ uidW) =
          some { cfgW with isActive := isActiveReq } ∧
        (∀ k2, k2 ≠ "stv_config:" ++ uidW →
          kvGet (toggleHangupW authStore storeW uidW tokW isActiveReq).1 k2 =
            kvGet storeW k2)) := by
  intro storeA uidA cidA cfgA authStore storeW uidW tokW isActiveReq cfgW
  constructor
  · intro h1
    have hs1 : (toggleConfigA storeA uidA cidA).1 =
        kvPut storeA ("stv_config:" ++ uidA ++ ":" ++ cidA)
          { cfgA with isActive := !cfgA.isActive } := by
      unfold toggleConfigA
      simp only [h1]
    rw [hs1]
    exact ⟨kvGet_put_same _ _ _, fun k2 hk2 => kvGet_put_other _ _ _ _ hk2⟩
  · intro hv h1
    have hs1 : (toggleHangupW authStore storeW uidW tokW isActiveReq).1 =
        kvPut storeW ("stv_config:" ++ uidW)
          { cfgW with isActive := isActiveReq } := by
      unfold toggleHangupW
      rw [hv]
      simp [h1]
    rw [hs1]
    exact ⟨kvGet_put_same _ _ _, fun k2 hk2 => kvGet_put_other _ _ _ _ hk2⟩

/-- Witness for C9 at a concrete one-record store: the toggled record equals
the original with only `isActive` flipped. -/
theorem c9_toggle_frame_witness :
    kvGet (toggleConfigA [("stv_config:u1:c1", sampleConfigA)] "u1" "c1").1
        "stv_config:u1:c1" =
      some { sampleConfigA with isActive := false } := by
  have h := (c9_toggle_frame [("stv_config:u1:c1", sampleConfigA)] "u1" "c1"
    sampleConfigA [] [] "u" "t" true sampleConfigW).1 (by rfl)
  exact h.1

/-! ## Sweep executors (claim C2) -/

theorem executeHangupTasksW_get :
    ∀ (now : String) (call : UserConfigW → CallOutcomeW)
      (cfgs : List UserConfigW) (i : Nat),
      (executeHangupTasksW now call cfgs)[i]? = (cfgs[i]?).map (fun cfg =>
        if cfg.isActive then
          match call cfg with
          | .ok r => { cfg with lastExecuted := some now, lastResult := some ("成功: " ++ r) }
          | .error e => { cfg with lastExecuted := some now, lastResult := some ("失败: " ++ e) }
        else cfg) := by
  intro now call cfgs
  induction cfgs with
  | nil => intro i; simp [executeHangupTasksW]
  | cons cfg rest ih =>
    intro i
    simp only [executeHangupTasksW]
    by_cases ha : cfg.isActive
    · rw [if_pos ha]
      cases i with
      | zero => simp [ha]
      | succ j => simpa using ih j
    · rw [if_neg ha]
      cases i with
      | zero => simp [ha]
      | succ j => simpa using ih j

theorem executeAllHangupTasksA_get :
    ∀ (now : String) (resp : UserConfigA → Except String FetchResp)
      (cfgs : List UserConfigA) (i : Nat),
      (executeAllHangupTasksA now resp cfgs)[i]? = (cfgs[i]?).map (fun cfg =>
        if cfg.isActive then executeHangupRequestA now (resp cfg) cfg
        else cfg) := by
  intro now resp cfgs
  induction cfgs with
  | nil => intro i; simp [executeAllHangupTasksA]
  | cons cfg rest ih =>
    intro i
    simp only [executeAllHangupTasksA]
    by_cases ha : cfg.isActive
    · rw [if_pos ha]
      cases i with
      | zero => simp [ha]
      | succ j => simpa using ih j
    · rw [if_neg ha]
      cases i with
      | zero => simp [ha]
      | succ j => simpa using ih j

theorem executeHangupTasksW_length :
    ∀ (now : String) (call : UserConfigW → CallOutcomeW) (cfgs : List UserConfigW),
      (executeHangupTasksW now call cfgs).length = cfgs.length := by
  intro now call cfgs
  induction cfgs with
  | nil => rfl
  | cons cfg rest ih =>
    simp only [executeHangupTasksW]
    by_cases ha : cfg.isActive
    · rw [if_pos ha]; simpa using ih
    · rw [if_neg ha]; simpa using ih

theorem executeAllHangupTasksA_length :
    ∀ (now : String) (resp : UserConfigA → Except String FetchResp)
      (cfgs : List UserConfigA),
      (executeAllHangupTasksA now resp cfgs).length = cfgs.length := by
  intro now resp cfgs
  induction cfgs with
  | nil => rfl
  | cons cfg rest ih =>
    simp only [executeAllHangupTasksA]
    by_cases ha : cfg.isActive
    · rw [if_pos ha]; simpa using ih
    · rw [if_neg ha]; simpa using ih

theorem executeHangupRequestA_bookkeeping :
    ∀ (now : String) (resp : Except String FetchResp) (cfg : UserConfigA),
      (executeHangupRequestA now resp cfg).lastExecuted = some now ∧
      (executeHangupRequestA now resp cfg).lastResult ≠ none ∧
      (executeHangupRequestA now resp cfg).executionCount =
        some (cfg.executionCount.getD 0 + 1) := by
  intro now resp cfg
  cases resp with
  | ok r => exact ⟨rfl, by simp [executeHangupRequestA], rfl⟩
  | error e => exact ⟨rfl, by simp [executeHangupRequestA], rfl⟩

/-- **C2.** Sweep isolation: for every list of stored configs and every
outcome of the per-config outbound calls — in particular when some config's
call throws — both sweep executors visit every config: the output has one
record per input record; every active record, whether its own call succeeded
or threw, is persisted with `lastExecuted = now` and a written `lastResult`
(worker.ts lines 418–462; part_004 lines 759–792, which also increments
`executionCount`); every inactive record is left unchanged.  No config's
failure influences whether any other config is attempted and updated. -/
theorem c2_sweep_isolation :
    ∀ (now : String) (callW : UserConfigW → CallOutcomeW)
      (cfgsW : List UserConfigW)
      (respA : UserConfigA → Except String FetchResp) (cfgsA : List UserConfigA),
      (executeHangupTasksW now callW cfgsW).length = cfgsW.length ∧
      (∀ (i : Nat) (cfg : UserConfigW), cfgsW[i]? = some cfg → cfg.isActive = true →
        ∃ res, (executeHangupTasksW now callW cfgsW)[i]? =
          some { cfg with lastExecuted := some now, lastResult := some res } ∧
          (∀ r, callW cfg = .ok r → res = "成功: " ++ r) ∧
          (∀ e, callW cfg = .error e → res = "失败: " ++ e)) ∧
      (∀ (i : Nat) (cfg : UserConfigW), cfgsW[i]? = some cfg → cfg.isActive = false →
        (executeHangupTasksW now callW cfgsW)[i]? = some cfg) ∧
      (executeAllHangupTasksA now respA cfgsA).length = cfgsA.length ∧
      (∀ (i : Nat) (cfg : UserConfigA), cfgsA[i]? = some cfg → cfg.isActive = true →
        (executeAllHangupTasksA now respA cfgsA)[i]? =
          some (executeHangupRequestA now (respA cfg) cfg) ∧
        (executeHangupRequestA now (respA cfg) cfg).lastExecuted = some now ∧
        (executeHangupRequestA now (respA cfg) cfg).lastResult ≠ none ∧
        (executeHangupRequestA now (respA cfg) cfg).executionCount =
          some (cfg.executionCount.getD 0 + 1)) ∧
      (∀ (i : Nat) (cfg : UserConfigA), cfgsA[i]? = some cfg → cfg.isActive = false →
        (executeAllHangupTasksA now respA cfgsA)[i]? = some cfg) := by
  intro now callW cfgsW respA cfgsA
  refine ⟨executeHangupTasksW_length now callW cfgsW, ?_, ?_,
    executeAllHangupTasksA_length now respA cfgsA, ?_, ?_⟩
  · intro i cfg hi ha
    rw [executeHangupTasksW_get, hi]
    cases hc : callW cfg with
    | ok r =>
      refine ⟨"成功: " ++ r, ?_, ?_, ?_⟩
      · simp [ha, hc]
      · intro r2 h2; cases h2; rfl
      · intro e2 h2; cases h2
    | error e =>
      refine ⟨"失败: " ++ e, ?_, ?_, ?_⟩
      · simp [ha, hc]
      · intro r2 h2; cases h2
      · intro e2 h2; cases h2; rfl
  · intro i cfg hi ha
    rw [executeHangupTasksW_get, hi]
    simp [ha]
  · intro i cfg hi ha
    have h1 : (executeAllHangupTasksA now respA cfgsA)[i]? =
        some (executeHangupRequestA now (respA cfg) cfg) := by
      rw [executeAllHangupTasksA_get, hi]
      simp [ha]
    exact ⟨h1, executeHangupRequestA_bookkeeping now (respA cfg) cfg⟩
  · intro i cfg hi ha
    rw [executeAllHangupTasksA_get, hi]
    simp [ha]

/-- Witness for C2: three active worker.ts configs where config #2's
outbound call throws — the sweep still updates all three records'
`lastExecuted`, recording success for #1 and #3 and the failure for #2. -/
theorem c2_sweep_isolation_witness :
    (executeHangupTasksW "T" (fun cfg =>
        if cfg.userId == "u2" then .error "network down" else .ok "body")
        [sweepCfg1, sweepCfg2, sweepCfg3])[0]? =
      some { sweepCfg1 with lastExecuted := some "T", lastResult := some "成功: body" } ∧
    (executeHangupTasksW "T" (fun cfg =>
        if cfg.userId == "u2" then .error "network down" else .ok "body")
        [sweepCfg1, sweepCfg2, sweepCfg3])[1]? =
      some { sweepCfg2 with lastExecuted := some "T", lastResult := some "失败: network down" } ∧
    (executeHangupTasksW "T" (fun cfg =>
        if cfg.userId == "u2" then .error "network down" else .ok "body")
        [sweepCfg1, sweepCfg2, sweepCfg3])[2]? =
      some { sweepCfg3 with lastExecuted := some "T", lastResult := some "成功: body" } := by
  have h := c2_sweep_isolation "T" (fun cfg =>
    if cfg.userId == "u2" then .error "network down" else .ok "body")
    [sweepCfg1, sweepCfg2, sweepCfg3] (fun _ => .error "unused") []
  refine ⟨?_, ?_, ?_⟩
  · rcases h.2.1 0 sweepCfg1 rfl rfl with ⟨res, heq, hok, _⟩
    rw [hok "body" rfl] at heq
    exact heq
  · rcases h.2.1 1 sweepCfg2 rfl rfl with ⟨res, heq, _, herr⟩
    rw [herr "network down" rfl] at heq
    exact heq
  · rcases h.2.1 2 sweepCfg3 rfl rfl with ⟨res, heq, hok, _⟩
    rw [hok "body" rfl] at heq
    exact heq

/-! ## List projection strips the credential (claim C3) -/

/-- **C3.** The List operation never returns a stored credential: part_004's
`getUserConfigs` (lines 834–852) deletes the `cookie` field, so the listed
record is the same for any two credential values; part_003's `getUserConfigs`
(lines 1099–1151) projects the record onto non-credential fields plus the
boolean `cookieExists`, so listed records agree for any two credentials of
equal emptiness; every string in either List payload is one of the stored
non-credential field values; hence after creating a config (part_004 create
route, lines 64–86) with a credential distinct from every stored
non-credential field value, that credential string appears nowhere in the
List payload. -/
theorem c3_list_strips_credential :
    ∀ (cfgA : UserConfigA) (c : String) (cfgB : UserConfigB) (c1 c2 : String)
      (uid : String) (storeA : KVStore UserConfigA) (storeB : KVStore UserConfigB)
      (body : UserConfigA) (cid cat : String),
      listedOfConfigA { cfgA with cookie := c } = listedOfConfigA cfgA ∧
      ((c1 = "" ↔ c2 = "") →
        listedOfConfigB { cfgB with cookie := c1 } =
          listedOfConfigB { cfgB with cookie := c2 }) ∧
      (∀ l ∈ getUserConfigsA uid storeA, ∀ s ∈ listedStringsA l,
        ∃ e ∈ storeA, s ∈ storedStringsA e.2) ∧
      (∀ l ∈ getUserConfigsB uid storeB, ∀ s ∈ listedStringsB l,
        ∃ e ∈ storeB, s ∈ storedStringsB e.2) ∧
      ((∀ e ∈ createConfigA storeA body cid cat, body.cookie ∉ storedStringsA e.2) →
        ∀ l ∈ getUserConfigsA uid (createConfigA storeA body cid cat),
          body.cookie ∉ listedStringsA l) := by
  intro cfgA c cfgB c1 c2 uid storeA storeB body cid cat
  have hsubA : ∀ (store : KVStore UserConfigA),
      ∀ l ∈ getUserConfigsA uid store, ∀ s ∈ listedStringsA l,
        ∃ e ∈ store, s ∈ storedStringsA e.2 := by
    intro store l hl s hs
    unfold getUserConfigsA at hl
    rcases List.mem_map.1 hl with ⟨e, he, rfl⟩
    exact ⟨e, (List.mem_filter.1 he).1, hs⟩
  refine ⟨rfl, ?_, hsubA storeA, ?_, ?_⟩
  · intro h
    have hb : (c1 == "") = (c2 == "") := by
      by_cases h1 : c1 = "" <;> by_cases h2 : c2 = "" <;> simp_all
    simp [listedOfConfigB, hb]
  · intro l hl s hs
    unfold getUserConfigsB at hl
    rcases List.mem_map.1 hl with ⟨e, he, rfl⟩
    exact ⟨e, (List.mem_filter.1 he).1, hs⟩
  · intro hno l hl hmem
    rcases hsubA (createConfigA storeA body cid cat) l hl body.cookie hmem with
      ⟨e, heStore, hsStored⟩
    exact hno e heStore hsStored

/-- Witness for C3: create a config whose credential is `cookie=secret123`
into the empty store; that string appears in no record of the subsequent
List payload for the user. -/
theorem c3_list_strips_credential_witness :
    (∀ e ∈ createConfigA [] sampleConfigA "c9" "t1",
      sampleConfigA.cookie ∉ storedStringsA e.2) ∧
    ∀ l ∈ getUserConfigsA "u1" (createConfigA [] sampleConfigA "c9" "t1"),
      "cookie=secret123" ∉ listedStringsA l := by
  refine ⟨by decide, ?_⟩
  exact (c3_list_strips_credential sampleConfigA "x" sampleConfigB "a" "b" "u1"
    [] [] sampleConfigA "c9" "t1").2.2.2.2 (by decide)

/-! ## Scheduling-offset due predicate (claim C1) -/

/-- **C1.** In the scheduling variant of part_003's second program the cycle
length is `W = 60` seconds and the window half-width is `0`: an offset drawn
by `generateExecutionOffset` always lies in `[0, 60)`, and for any such
offset the due predicate of `executeHangupTasks` (elapsed-time guard plus
`currentSeconds === executionOffset`) holds exactly when the current cycle
position `epochSeconds mod 60` is at modular distance
`min(|p - o|, 60 - |p - o|) = 0` from the window center `o mod 60` —
the wraparound-aware distance, not naive subtraction — and, this being the
elapsed-time-guarded variant, at least 5 minutes (300000 ms) have passed
since `lastExecuted`. -/
theorem c1_due_iff_modular_window :
    ∀ (nowMs : Nat) (lastMs : Option Nat) (off : Nat) (r : ℚ),
      0 ≤ r → r < 1 →
      generateExecutionOffset r < 60 ∧
      (off < 60 →
        (isDueB nowMs lastMs (some off) = true ↔
          (modDist (nowMs / 1000 % 60) (off % 60) 60 = 0 ∧
            ∀ l ∈ lastMs, 300000 ≤ nowMs - l))) := by
  intro nowMs lastMs off r hr0 hr1
  constructor
  · have h1 : ⌊r * 60⌋ < 60 := by
      apply Int.floor_lt.2
      push_cast
      linarith
    unfold generateExecutionOffset
    omega
  · intro hoff
    have hp : nowMs / 1000 % 60 < 60 := Nat.mod_lt _ (by omega)
    have hoffm : off % 60 = off := Nat.mod_eq_of_lt hoff
    have hguard : shouldExecuteNowB nowMs lastMs = true ↔
        ∀ l ∈ lastMs, 300000 ≤ nowMs - l := by
      cases lastMs with
      | none => simp [shouldExecuteNowB]
      | some l => simp [shouldExecuteNowB]
    have hwin : (currentSecondsOf nowMs == (some off).getD 0) = true ↔
        modDist (nowMs / 1000 % 60) (off % 60) 60 = 0 := by
      simp only [Option.getD_some, beq_iff_eq, currentSecondsOf]
      unfold modDist
      rw [hoffm]
      omega
    simp only [isDueB, Bool.and_eq_true]
    rw [hguard, hwin]
    tauto

/-- Witness for C1 at offset 30 (the draw `r = 1/2`), a never-executed
config and an instant whose seconds field is 30: the config is due, and one
second later it is not. -/
theorem c1_due_iff_modular_window_witness :
    generateExecutionOffset (1 / 2 : ℚ) < 60 ∧
    isDueB 1759999830000 none (some 30) = true ∧
    modDist (1759999830000 / 1000 % 60) (30 % 60) 60 = 0 ∧
    isDueB 1759999831000 none (some 30) = false := by
  have h := c1_due_iff_modular_window 1759999830000 none 30 (1 / 2 : ℚ)
    (by norm_num) (by norm_num)
  refine ⟨h.1, ?_, by decide, by decide⟩
  exact (h.2 (by norm_num)).2 ⟨by decide, by simp⟩

/-! ## Path normalization (claim C4) -/

theorem normalizePathA_eq_tail (s : List Char) :
    normalizePathA s = if jsTrim s = [] then ['/'] else pathTail (jsTrim s) := rfl

theorem normalizePathB_eq_tail (s : List Char) :
    normalizePathB s =
      if jsTrim s = [] then ['/'] else pathTail (gStep (jsTrim s)) := rfl

theorem jsTrim_eq_self (l : List Char)
    (hh : ∀ c, l.head? = some c → isJsWs c = false)
    (hl : ∀ c, l.getLast? = some c → isJsWs c = false) : jsTrim l = l := by
  have h1 : l.dropWhile isJsWs = l := by
    cases l with
    | nil => rfl
    | cons a r =>
      rw [List.dropWhile_cons, if_neg]
      rw [hh a rfl]
      simp
  unfold jsTrim
  rw [h1]
  have h2 : l.reverse.dropWhile isJsWs = l.reverse := by
    cases hr : l.reverse with
    | nil => rfl
    | cons a r =>
      rw [List.dropWhile_cons, if_neg]
      have : l.getLast? = some a := by
        rw [← List.head?_reverse, hr]
        rfl
      rw [hl a this]
      simp
  rw [h2, List.reverse_reverse]

theorem collapseSlashes_head? : ∀ l : List Char, (collapseSlashes l).head? = l.head?
  | [] => rfl
  | [_] => rfl
  | a :: b :: r => by
    simp only [collapseSlashes]
    by_cases h : (a = '/' && b = '/') = true
    · rw [if_pos h]
      rw [collapseSlashes_head? (b :: r)]
      simp only [Bool.and_eq_true, decide_eq_true_eq] at h
      simp [h.1, h.2]
    · rw [if_neg h]
      simp

theorem noDupSlash_collapseSlashes : ∀ l : List Char, noDupSlash (collapseSlashes l) = true
  | [] => rfl
  | [_] => rfl
  | a :: b :: r => by
    simp only [collapseSlashes]
    by_cases h : (a = '/' && b = '/') = true
    · rw [if_pos h]
      exact noDupSlash_collapseSlashes (b :: r)
    · rw [if_neg h]
      have hh := collapseSlashes_head? (b :: r)
      have ht := noDupSlash_collapseSlashes (b :: r)
      cases hc : collapseSlashes (b :: r) with
      | nil => rfl
      | cons x t =>
        rw [hc] at hh ht
        simp only [List.head?_cons] at hh
        have hx : x = b := by simpa using hh
        rw [noDupSlash]
        simp only [Bool.and_eq_true]
        refine ⟨?_, ht⟩
        have hf : (a = '/' && b = '/') = false := by
          cases hab : (a = '/' && b = '/') with
          | false => rfl
          | true => exact absurd hab h
        rw [hx, hf]
        rfl

theorem collapseSlashes_of_noDup : ∀ l : List Char, noDupSlash l = true → collapseSlashes l = l
  | [], _ => rfl
  | [_], _ => rfl
  | a :: b :: r, h => by
    rw [noDupSlash] at h
    simp only [Bool.and_eq_true, Bool.not_eq_eq_eq_not, Bool.not_true] at h
    simp only [collapseSlashes]
    rw [if_neg (by simp [h.1]), collapseSlashes_of_noDup (b :: r) h.2]

theorem noDupSlash_append_slash : ∀ l : List Char, noDupSlash l = true →
    l.getLast? ≠ some '/' → noDupSlash (l ++ ['/']) = true
  | [], _, _ => rfl
  | [c], _, hl => by
    have hc : ¬c = '/' := by
      intro h
      exact hl (by simp [h])
    simp [noDupSlash, hc]
  | a :: b :: r, h, hl => by
    rw [noDupSlash] at h
    simp only [Bool.and_eq_true, Bool.not_eq_eq_eq_not, Bool.not_true] at h
    have hl2 : (b :: r).getLast? ≠ some '/' := by
      rw [← List.getLast?_cons_cons (a := a)]
      exact hl
    have ih := noDupSlash_append_slash (b :: r) h.2 hl2
    show noDupSlash (a :: (b :: r) ++ ['/']) = true
    rw [List.cons_append, noDupSlash.eq_def]
    simp only [List.cons_append]
    simp only [Bool.and_eq_true]
    constructor
    · simp [h.1]
    · exact ih

theorem takeWhile_ne_nil_head {p : Char → Bool} {l : List Char}
    (h : l.takeWhile p ≠ []) : ∃ a t, l = a :: t ∧ p a = true := by
  cases l with
  | nil => simp [List.takeWhile] at h
  | cons a t =>
    rw [List.takeWhile_cons] at h
    by_cases hp : p a = true
    · exact ⟨a, t, rfl, hp⟩
    · rw [if_neg (by simp [hp])] at h
      simp at h

theorem hasExtSuffix_last (l : List Char) (h : hasExtSuffix l = true) :
    ∃ c, l.getLast? = some c ∧ isAsciiAlnum c = true := by
  unfold hasExtSuffix at h
  simp only [Bool.and_eq_true] at h
  have h1 : l.reverse.takeWhile isAsciiAlnum ≠ [] := by
    intro hnil
    rw [hnil] at h
    simp at h
  rcases takeWhile_ne_nil_head h1 with ⟨a, t, hrev, ha⟩
  refine ⟨a, ?_, ha⟩
  rw [← List.head?_reverse, hrev]
  rfl

theorem alnum_not_ws (c : Char) (h : isAsciiAlnum c = true) : isJsWs c = false := by
  simp only [isAsciiAlnum, Bool.or_eq_true, Bool.and_eq_true, decide_eq_true_eq] at h
  cases hws : isJsWs c with
  | false => rfl
  | true =>
    exfalso
    simp only [isJsWs, Bool.or_eq_true, Bool.and_eq_true, decide_eq_true_eq] at hws
    omega

theorem pathTail_eq (w : List Char) :
    pathTail w =
      (fun q =>
        if q ≠ ['/'] ∧ hasExtSuffix q = false ∧ q.getLast? ≠ some '/' then q ++ ['/']
        else q)
      (collapseSlashes (if w.head? = some '/' then w else '/' :: w)) := rfl

theorem pathTail_shape (w : List Char) :
    (pathTail w).head? = some '/' ∧ noDupSlash (pathTail w) = true ∧
      (pathTail w = ['/'] ∨ (pathTail w).getLast? = some '/' ∨
        hasExtSuffix (pathTail w) = true) := by
  rw [pathTail_eq]
  set p2 := if w.head? = some '/' then w else '/' :: w with hp2
  have hp2h : p2.head? = some '/' := by
    rw [hp2]
    by_cases hw : w.head? = some '/'
    · rw [if_pos hw]; exact hw
    · rw [if_neg hw]; rfl
  set q := collapseSlashes p2 with hq
  have hqh : q.head? = some '/' := by rw [hq, collapseSlashes_head?]; exact hp2h
  have hqd : noDupSlash q = true := by rw [hq]; exact noDupSlash_collapseSlashes p2
  simp only []
  by_cases hcond : q ≠ ['/'] ∧ hasExtSuffix q = false ∧ q.getLast? ≠ some '/'
  · rw [if_pos hcond]
    refine ⟨?_, ?_, Or.inr (Or.inl (List.getLast?_concat q))⟩
    · cases hcq : q with
      | nil => rw [hcq] at hqh; simp at hqh
      | cons x t =>
        rw [hcq] at hqh
        simp at hqh
        simp [hqh]
    · exact noDupSlash_append_slash q hqd hcond.2.2
  · rw [if_neg hcond]
    refine ⟨hqh, hqd, ?_⟩
    push_neg at hcond
    by_cases h1 : q = ['/']
    · exact Or.inl h1
    · by_cases h2 : hasExtSuffix q = false
      · exact Or.inr (Or.inl (hcond h1 h2))
      · exact Or.inr (Or.inr (by simpa using h2))

theorem shaped_last_not_ws (y : List Char)
    (h3 : y = ['/'] ∨ y.getLast? = some '/' ∨ hasExtSuffix y = true) :
    ∀ c, y.getLast? = some c → isJsWs c = false := by
  intro c hc
  rcases h3 with h | h | h
  · rw [h] at hc
    simp at hc
    rw [← hc]
    decide
  · rw [h] at hc
    cases hc
    decide
  · rcases hasExtSuffix_last y h with ⟨d, hd, hda⟩
    rw [hd] at hc
    cases hc
    exact alnum_not_ws _ hda

theorem pathTail_fix (y : List Char) (h1 : y.head? = some '/')
    (h2 : noDupSlash y = true)
    (h3 : y = ['/'] ∨ y.getLast? = some '/' ∨ hasExtSuffix y = true) :
    pathTail y = y := by
  rw [pathTail_eq]
  rw [if_pos h1]
  rw [collapseSlashes_of_noDup y h2]
  simp only []
  rw [if_neg]
  intro hcond
  rcases h3 with h | h | h
  · exact hcond.1 h
  · exact hcond.2.2 h
  · rw [h] at hcond
    simp at hcond

theorem jsTrim_shaped (y : List Char) (h1 : y.head? = some '/')
    (h3 : y = ['/'] ∨ y.getLast? = some '/' ∨ hasExtSuffix y = true) :
    jsTrim y = y := by
  apply jsTrim_eq_self
  · intro c hc
    rw [h1] at hc
    cases hc
    decide
  · exact shaped_last_not_ws y h3

/-- Idempotence of the rank.js/visit.js normalizer. -/
theorem normalizePathA_idem (s : List Char) :
    normalizePathA (normalizePathA s) = normalizePathA s := by
  by_cases ht : jsTrim s = []
  · rw [normalizePathA_eq_tail s, if_pos ht]
    decide
  · rw [normalizePathA_eq_tail s, if_neg ht]
    rcases pathTail_shape (jsTrim s) with ⟨h1, h2, h3⟩
    set y := pathTail (jsTrim s) with hy
    have hyne : jsTrim y ≠ [] := by
      rw [jsTrim_shaped y h1 h3]
      intro hnil
      rw [hnil] at h1
      simp at h1
    rw [normalizePathA_eq_tail y, if_neg hyne, jsTrim_shaped y h1 h3]
    exact pathTail_fix y h1 h2 h3

theorem hexVal_hexDigitChar (n : Nat) (h : n < 16) :
    hexVal (hexDigitChar n) = some n := by
  interval_cases n <;> decide

theorem uriKeep_not_pct (c : Char) (h : uriKeep c = true) : ¬c = '%' := by
  intro hc
  rw [hc] at h
  exact absurd h (by decide)

theorem decodeTokens_lit (c : Char) (w : List Char) (hc : ¬c = '%') :
    decodeTokens (c :: w) = (decodeTokens w).map (fun ts => Tok.lit c :: ts) := by
  rw [decodeTokens.eq_def]
  simp only []
  rw [if_neg hc]

theorem decodeTokens_hexByte (b : Nat) (w : List Char) (hb : b < 256) :
    decodeTokens (hexByte b ++ w) = (decodeTokens w).map (fun ts => escTok b :: ts) := by
  have e1 := hexVal_hexDigitChar (b / 16) (by omega)
  have e2 := hexVal_hexDigitChar (b % 16) (by omega)
  have hb0 : 16 * (b / 16) + b % 16 = b := by omega
  simp only [hexByte, List.cons_append, List.nil_append]
  rw [decodeTokens.eq_def]
  simp only [if_pos rfl]
  rw [e1, e2]
  simp only [hb0]
  rfl

theorem utf8Bytes_lt_256 (c : Char) : ∀ b ∈ utf8Bytes c, b < 256 := by
  intro b hb
  have hv : c.toNat < 0x110000 := by
    have h := c.valid
    unfold UInt32.isValidChar at h
    unfold Nat.isValidChar at h
    have : c.toNat = c.val.toNat := rfl
    omega
  simp only [utf8Bytes] at hb
  split_ifs at hb with h1 h2 h3 <;> simp at hb
  · omega
  · rcases hb with h | h <;> omega
  · rcases hb with h | h | h <;> omega
  · rcases hb with h | h | h | h <;> omega

theorem decodeTokens_toks (bs : List Nat) (w : List Char) (hbs : ∀ b ∈ bs, b < 256) :
    decodeTokens ((bs.map hexByte).flatten ++ w) =
      (decodeTokens w).map (fun ts => bs.map escTok ++ ts) := by
  induction bs with
  | nil => simp
  | cons b bs ih =>
    simp only [List.map_cons, List.flatten_cons, List.append_assoc]
    rw [decodeTokens_hexByte b _ (hbs b (by simp))]
    rw [ih (fun x hx => hbs x (by simp [hx]))]
    cases h : decodeTokens w <;> simp

theorem encChar_flatten (c : Char) (hk : ¬uriKeep c = true) :
    encChar c = ((utf8Bytes c).map hexByte).flatten := by
  unfold encChar
  rw [if_neg hk]
  have hv : c.toNat < 0x110000 := by
    have h := c.valid
    unfold UInt32.isValidChar at h
    unfold Nat.isValidChar at h
    have : c.toNat = c.val.toNat := rfl
    omega
  by_cases h1 : c.toNat < 0x80
  · rw [show utf8Bytes c = [c.toNat] from by simp only [utf8Bytes]; rw [if_pos h1]]
    simp
  · by_cases h2 : c.toNat < 0x800
    · rw [show utf8Bytes c = [0xC0 + c.toNat / 0x40, 0x80 + c.toNat % 0x40] from by
        simp only [utf8Bytes]; rw [if_neg h1, if_pos h2]]
      simp
    · by_cases h3 : c.toNat < 0x10000
      · rw [show utf8Bytes c = [0xE0 + c.toNat / 0x1000, 0x80 + c.toNat / 0x40 % 0x40,
            0x80 + c.toNat % 0x40] from by
          simp only [utf8Bytes]; rw [if_neg h1, if_neg h2, if_pos h3]]
        simp
      · rw [show utf8Bytes c = [0xF0 + c.toNat / 0x40000, 0x80 + c.toNat / 0x1000 % 0x40,
            0x80 + c.toNat / 0x40 % 0x40, 0x80 + c.toNat % 0x40] from by
          simp only [utf8Bytes]; rw [if_neg h1, if_neg h2, if_neg h3]]
        simp

theorem decodeTokens_encChar (c : Char) (w : List Char) :
    decodeTokens (encChar c ++ w) =
      (decodeTokens w).map (fun ts => encToks c ++ ts) := by
  by_cases hk : uriKeep c = true
  · simp only [encChar, encToks, if_pos hk, List.cons_append, List.nil_append]
    rw [decodeTokens_lit c w (uriKeep_not_pct c hk)]
  · rw [encChar_flatten c hk, decodeTokens_toks (utf8Bytes c) w (utf8Bytes_lt_256 c)]
    simp only [encToks, if_neg hk]

theorem decodeTokens_encodeURIL :
    ∀ (u : List Char) (w : List Char),
      decodeTokens (encodeURIL u ++ w) =
        (decodeTokens w).map (fun ts => encodeToks u ++ ts) := by
  intro u
  induction u with
  | nil =>
    intro w
    show decodeTokens ([] ++ w) = (decodeTokens w).map (fun ts => encodeToks [] ++ ts)
    rw [List.nil_append]
    cases h : decodeTokens w <;> simp [encodeToks]
  | cons c u ih =>
    intro w
    rw [encodeURIL, List.append_assoc, decodeTokens_encChar, ih]
    rw [encodeToks]
    cases h : decodeTokens w <;> simp

theorem char_valid_range (c : Char) :
    c.toNat < 0xD800 ∨ (0xDFFF < c.toNat ∧ c.toNat < 0x110000) := by
  have h := c.valid
  unfold UInt32.isValidChar at h
  unfold Nat.isValidChar at h
  have : c.toNat = c.val.toNat := rfl
  omega

theorem uriKeep_of_uriPreserve (c : Char) (h : uriPreserve c = true) :
    uriKeep c = true := by
  simp only [uriPreserve, Bool.or_eq_true] at h
  simp only [uriKeep, Bool.or_eq_true]
  tauto

theorem decodeAssemble_encToks (c : Char) (ts : List Tok) :
    decodeAssemble (encToks c ++ ts) = (decodeAssemble ts).map (fun t => c :: t) := by
  by_cases hk : uriKeep c = true
  · simp only [encToks, if_pos hk, List.cons_append, List.nil_append]
    simp only [decodeAssemble]
  · have hv := char_valid_range c
    have hnp : uriPreserve c = false := by
      cases hp : uriPreserve c with
      | false => rfl
      | true => exact absurd (uriKeep_of_uriPreserve c hp) hk
    by_cases h1 : c.toNat < 0x80
    · have hb : utf8Bytes c = [c.toNat] := by
        simp only [utf8Bytes]
        rw [if_pos h1]
      simp only [encToks, if_neg hk, hb, List.map_cons, List.map_nil, escTok,
        List.cons_append, List.nil_append]
      simp only [decodeAssemble]
      rw [if_pos h1, Char.ofNat_toNat, hnp]
      simp
    · by_cases h2 : c.toNat < 0x800
      · have hb : utf8Bytes c = [0xC0 + c.toNat / 0x40, 0x80 + c.toNat % 0x40] := by
          simp only [utf8Bytes]
          rw [if_neg h1, if_pos h2]
        simp only [encToks, if_neg hk, hb, List.map_cons, List.map_nil, escTok,
          List.cons_append, List.nil_append]
        simp only [decodeAssemble]
        rw [if_neg (by omega), if_pos (by constructor <;> omega)]
        simp only [decodeAsm2]
        rw [if_pos (by constructor <;> omega)]
        have hval : (0xC0 + c.toNat / 0x40 - 0xC0) * 0x40 +
            (0x80 + c.toNat % 0x40 - 0x80) = c.toNat := by omega
        rw [hval, Char.ofNat_toNat]
      · by_cases h3 : c.toNat < 0x10000
        · have hb : utf8Bytes c = [0xE0 + c.toNat / 0x1000,
              0x80 + c.toNat / 0x40 % 0x40, 0x80 + c.toNat % 0x40] := by
            simp only [utf8Bytes]
            rw [if_neg h1, if_neg h2, if_pos h3]
          simp only [encToks, if_neg hk, hb, List.map_cons, List.map_nil, escTok,
            List.cons_append, List.nil_append]
          simp only [decodeAssemble]
          rw [if_neg (by omega), if_neg (by omega), if_pos (by constructor <;> omega)]
          simp only [decodeAsm3]
          rw [if_pos (by constructor <;> (split_ifs with he <;> omega))]
          simp only [decodeAsmCont1]
          rw [if_pos (by constructor <;> omega)]
          have hval : (0xE0 + c.toNat / 0x1000 - 0xE0) * 0x1000 +
              (0x80 + c.toNat / 0x40 % 0x40 - 0x80) * 0x40 +
              (0x80 + c.toNat % 0x40 - 0x80) = c.toNat := by omega
          rw [hval, Char.ofNat_toNat]
        · have hb : utf8Bytes c = [0xF0 + c.toNat / 0x40000,
              0x80 + c.toNat / 0x1000 % 0x40, 0x80 + c.toNat / 0x40 % 0x40,
              0x80 + c.toNat % 0x40] := by
            simp only [utf8Bytes]
            rw [if_neg h1, if_neg h2, if_neg h3]
          simp only [encToks, if_neg hk, hb, List.map_cons, List.map_nil, escTok,
            List.cons_append, List.nil_append]
          simp only [decodeAssemble]
          rw [if_neg (by omega), if_neg (by omega), if_neg (by omega),
            if_pos (by constructor <;> omega)]
          simp only [decodeAsm4]
          rw [if_pos (by constructor <;> (split_ifs with he <;> omega))]
          simp only [decodeAsmCont2]
          rw [if_pos (by constructor <;> omega)]
          simp only [decodeAsmCont1]
          rw [if_pos (by constructor <;> omega)]
          have hval : (0xF0 + c.toNat / 0x40000 - 0xF0) * 0x40000 +
              (0x80 + c.toNat / 0x1000 % 0x40 - 0x80) * 0x1000 +
              (0x80 + c.toNat / 0x40 % 0x40 - 0x80) * 0x40 +
              (0x80 + c.toNat % 0x40 - 0x80) = c.toNat := by omega
          rw [hval, Char.ofNat_toNat]

theorem decodeAssemble_encodeToks :
    ∀ (u : List Char) (ts : List Tok),
      decodeAssemble (encodeToks u ++ ts) = (decodeAssemble ts).map (fun t => u ++ t) := by
  intro u
  induction u with
  | nil =>
    intro ts
    show decodeAssemble ([] ++ ts) = (decodeAssemble ts).map (fun t => [] ++ t)
    rw [List.nil_append]
    cases h : decodeAssemble ts <;> simp
  | cons c u ih =>
    intro ts
    rw [encodeToks, List.append_assoc, decodeAssemble_encToks, ih]
    cases h : decodeAssemble ts <;> simp

theorem decodeURIL_encodeURIL (u : List Char) : decodeURIL (encodeURIL u) = some u := by
  unfold decodeURIL
  have h := decodeTokens_encodeURIL u []
  rw [List.append_nil] at h
  rw [h]
  have h2 := decodeAssemble_encodeToks u []
  rw [List.append_nil] at h2
  simp [decodeTokens, h2, decodeAssemble]

theorem gStep_encodeURIL (u : List Char) : gStep (encodeURIL u) = encodeURIL u := by
  unfold gStep
  rw [decodeURIL_encodeURIL u]

theorem gStep_enc (p : List Char) : ∃ u, gStep p = encodeURIL u := by
  unfold gStep
  cases h : decodeURIL p with
  | none => exact ⟨p, rfl⟩
  | some d => exact ⟨d, rfl⟩

theorem encodeURIL_append (a b : List Char) :
    encodeURIL (a ++ b) = encodeURIL a ++ encodeURIL b := by
  induction a with
  | nil => simp [encodeURIL]
  | cons c r ih => simp [encodeURIL, ih]

theorem hexDigitChar_not_slash (n : Nat) : ¬hexDigitChar n = '/' := by
  match n with
  | 0 | 1 | 2 | 3 | 4 | 5 | 6 | 7 | 8 | 9 | 10 | 11 | 12 | 13 | 14 => decide
  | n + 15 =>
    show ¬('F' = '/')
    decide

theorem slash_uriKeep : uriKeep '/' = true := by decide

theorem encChar_slash : encChar '/' = ['/'] := by decide

theorem slash_not_mem_hexByte (b : Nat) : '/' ∉ hexByte b := by
  intro h
  simp only [hexByte, List.mem_cons, List.not_mem_nil, or_false] at h
  rcases h with h | h | h
  · exact absurd h.symm (by decide)
  · exact absurd h.symm (hexDigitChar_not_slash _)
  · exact absurd h.symm (hexDigitChar_not_slash _)

theorem slash_not_mem_encChar (c : Char) (hc : ¬c = '/') : '/' ∉ encChar c := by
  by_cases hk : uriKeep c = true
  · unfold encChar
    rw [if_pos hk]
    simp only [List.mem_singleton]
    exact fun h => hc h.symm
  · rw [encChar_flatten c hk]
    intro h
    rw [List.mem_flatten] at h
    rcases h with ⟨l, hl, hmem⟩
    rw [List.mem_map] at hl
    rcases hl with ⟨b, _, rfl⟩
    exact slash_not_mem_hexByte b hmem

theorem encChar_head (c : Char) :
    ∃ d t, encChar c = d :: t ∧ ((d = '/') ↔ (c = '/')) := by
  by_cases hk : uriKeep c = true
  · refine ⟨c, [], ?_, Iff.rfl⟩
    unfold encChar
    rw [if_pos hk]
  · have hc : ¬c = '/' := by
      intro h
      rw [h] at hk
      exact hk slash_uriKeep
    rw [encChar_flatten c hk]
    have hv : utf8Bytes c ≠ [] := by
      simp only [utf8Bytes]
      split_ifs <;> simp
    cases hb : utf8Bytes c with
    | nil => exact absurd hb hv
    | cons b bs =>
      refine ⟨'%', hexDigitChar (b / 16) :: hexDigitChar (b % 16) ::
        ((bs.map hexByte).flatten), ?_, ?_⟩
      · simp [hexByte]
      · constructor
        · intro h; exact absurd h (by decide)
        · intro h; exact absurd h hc

theorem collapse_append_noSlash :
    ∀ (seg w : List Char), '/' ∉ seg →
      collapseSlashes (seg ++ w) = seg ++ collapseSlashes w
  | [], w, _ => by simp
  | [x], w, hx => by
    have hxs : ¬x = '/' := by
      intro h
      exact hx (by simp [h])
    cases w with
    | nil => rfl
    | cons wh wt =>
      show collapseSlashes (x :: wh :: wt) = x :: collapseSlashes (wh :: wt)
      simp only [collapseSlashes]
      rw [if_neg (by simp [hxs])]
  | x :: y :: seg, w, hx => by
    have hxs : ¬x = '/' := by
      intro h
      exact hx (by simp [h])
    have hys : '/' ∉ y :: seg := by
      intro h
      exact hx (List.mem_cons.2 (Or.inr h))
    have ih := collapse_append_noSlash (y :: seg) w hys
    show collapseSlashes (x :: (y :: (seg ++ w))) = x :: (y :: (seg ++ collapseSlashes w))
    simp only [collapseSlashes]
    rw [if_neg (by simp [hxs])]
    simp only [List.cons_append] at ih
    rw [ih]

theorem collapse_encodeURIL :
    ∀ u : List Char, collapseSlashes (encodeURIL u) = encodeURIL (collapseSlashes u)
  | [] => rfl
  | [c] => by
    show collapseSlashes (encChar c ++ []) = encodeURIL [c]
    by_cases hc : c = '/'
    · rw [hc, encChar_slash]
      rfl
    · rw [collapse_append_noSlash (encChar c) [] (slash_not_mem_encChar c hc)]
      show encChar c ++ [] = encChar c ++ encodeURIL []
      rfl
  | a :: b :: r => by
    by_cases hab : a = '/' ∧ b = '/'
    · rw [hab.1, hab.2] at *
      show collapseSlashes (encChar '/' ++ encodeURIL ('/' :: r)) =
        encodeURIL (collapseSlashes ('/' :: '/' :: r))
      rw [encChar_slash]
      have h1 : collapseSlashes ('/' :: '/' :: r) = collapseSlashes ('/' :: r) := by
        simp only [collapseSlashes]
        rw [if_pos (by simp)]
      rw [h1]
      have h2 : encodeURIL ('/' :: r) = '/' :: encodeURIL r := by
        show encChar '/' ++ encodeURIL r = _
        rw [encChar_slash]
        rfl
      rw [h2]
      show collapseSlashes ('/' :: '/' :: encodeURIL r) =
        encodeURIL (collapseSlashes ('/' :: r))
      have h3 : collapseSlashes ('/' :: '/' :: encodeURIL r) =
          collapseSlashes ('/' :: encodeURIL r) := by
        simp only [collapseSlashes]
        rw [if_pos (by simp)]
      rw [h3, ← h2]
      exact collapse_encodeURIL ('/' :: r)
    · by_cases ha : a = '/'
      · have hb : ¬b = '/' := fun h => hab ⟨ha, h⟩
        rw [ha]
        show collapseSlashes (encChar '/' ++ encodeURIL (b :: r)) =
          encodeURIL (collapseSlashes ('/' :: b :: r))
        rw [encChar_slash]
        rcases encChar_head b with ⟨d, t, hd, hdiff⟩
        have hds : ¬d = '/' := fun h => hb (hdiff.1 h)
        have henc : encodeURIL (b :: r) = d :: (t ++ encodeURIL r) := by
          show encChar b ++ encodeURIL r = _
          rw [hd]
          rfl
        rw [henc]
        show collapseSlashes ('/' :: d :: (t ++ encodeURIL r)) = _
        have hstep : collapseSlashes ('/' :: d :: (t ++ encodeURIL r)) =
            '/' :: collapseSlashes (d :: (t ++ encodeURIL r)) := by
          simp only [collapseSlashes]
          rw [if_neg (by simp [hds])]
        rw [hstep, ← henc, collapse_encodeURIL (b :: r)]
        have hcol : collapseSlashes ('/' :: b :: r) = '/' :: collapseSlashes (b :: r) := by
          simp only [collapseSlashes]
          rw [if_neg (by simp [hb])]
        rw [hcol]
        show _ = encChar '/' ++ encodeURIL (collapseSlashes (b :: r))
        rw [encChar_slash]
        rfl
      · show collapseSlashes (encChar a ++ encodeURIL (b :: r)) =
          encodeURIL (collapseSlashes (a :: b :: r))
        rw [collapse_append_noSlash (encChar a) _ (slash_not_mem_encChar a ha)]
        rw [collapse_encodeURIL (b :: r)]
        have hcol : collapseSlashes (a :: b :: r) = a :: collapseSlashes (b :: r) := by
          simp only [collapseSlashes]
          rw [if_neg (by simp [ha])]
        rw [hcol]
        rfl
termination_by u => u.length
decreasing_by
  all_goals simp [List.length_cons]

theorem encodeURIL_slash_singleton : encodeURIL ['/'] = ['/'] := by decide

theorem enc_cons_slash (u : List Char) :
    '/' :: encodeURIL u = encodeURIL ('/' :: u) := by
  show _ = encChar '/' ++ encodeURIL u
  rw [encChar_slash]
  rfl

theorem pathTail_enc (u : List Char) :
    ∃ v, pathTail (encodeURIL u) = encodeURIL v := by
  rw [pathTail_eq]
  obtain ⟨u2, hu2⟩ : ∃ u2, (if (encodeURIL u).head? = some '/' then encodeURIL u
      else '/' :: encodeURIL u) = encodeURIL u2 := by
    by_cases h : (encodeURIL u).head? = some '/'
    · exact ⟨u, by rw [if_pos h]⟩
    · refine ⟨'/' :: u, ?_⟩
      rw [if_neg h]
      exact enc_cons_slash u
  rw [hu2, collapse_encodeURIL u2]
  set u3 := collapseSlashes u2 with hu3
  by_cases hcond : encodeURIL u3 ≠ ['/'] ∧ hasExtSuffix (encodeURIL u3) = false ∧
      (encodeURIL u3).getLast? ≠ some '/'
  · refine ⟨u3 ++ ['/'], ?_⟩
    simp only []
    rw [if_pos hcond, encodeURIL_append, encodeURIL_slash_singleton]
  · refine ⟨u3, ?_⟩
    simp only []
    rw [if_neg hcond]

theorem normalizePathB_idem (s : List Char) :
    normalizePathB (normalizePathB s) = normalizePathB s := by
  by_cases ht : jsTrim s = []
  · rw [normalizePathB_eq_tail s, if_pos ht]
    decide
  · rw [normalizePathB_eq_tail s, if_neg ht]
    obtain ⟨u, hu⟩ := gStep_enc (jsTrim s)
    rcases pathTail_shape (gStep (jsTrim s)) with ⟨h1, h2, h3⟩
    set y := pathTail (gStep (jsTrim s)) with hy
    obtain ⟨v, hv⟩ : ∃ v, y = encodeURIL v := by
      rw [hy, hu]
      exact pathTail_enc u
    have hyne : jsTrim y ≠ [] := by
      rw [jsTrim_shaped y h1 h3]
      intro hnil
      rw [hnil] at h1
      simp at h1
    rw [normalizePathB_eq_tail y, if_neg hyne, jsTrim_shaped y h1 h3]
    have hg : gStep y = y := by
      rw [hv]
      exact gStep_encodeURIL v
    rw [hg]
    exact pathTail_fix y h1 h2 h3

/-- C4: path normalization is idempotent for both implementations of the
Path Normalizer: `normalizePath` of `src/functions/api/rank.js` (modelled by
`normalizePathA`) and `normalizePath` of `src/unnamed/part_002` (modelled by
`normalizePathB`, which additionally round-trips through
`encodeURI(decodeURI(path))` with an `encodeURI(path)` fallback): for every
string `s`, `normalize(normalize(s)) = normalize(s)`. -/
theorem c4_normalize_idempotent (s : List Char) :
    normalizePathA (normalizePathA s) = normalizePathA s ∧
    normalizePathB (normalizePathB s) = normalizePathB s :=
  ⟨normalizePathA_idem s, normalizePathB_idem s⟩
